import Mathlib

/-!
# A shallow embedding of `app/main.go` (redis-from-scratch)

The program is a single Go file: three process-wide maps (`store`, `expiry`,
`lists`), a background goroutine that removes expired keys once per second, and
`handleConnection`, whose loop decodes one request frame and dispatches on the
upper-cased command name.

Modelling conventions.

* Go maps are association lists (`GoMap`); iteration order carries no meaning.
* Go `int` (on a 64-bit platform) and `time.Duration` are 64-bit: arithmetic
  that the source performs on them goes through `wrap64`.
* An instant (`time.Time`) is an integer count of nanoseconds on the clock read
  by `time.Now()`; `t.Add(d)` is `t + d` and `t.After(u)` is `t > u`.
* Go strings are Lean strings; `len(s)` is the UTF-8 byte length.
* `strings.ToUpper` is library code; the dispatcher takes it as a parameter.
  `asciiUpper` is the instance used on concrete (ASCII) inputs.
* Everything written to the connection while one frame is handled is collected,
  in order, in `Result.out`.
* The bytes still to come on a connection are a list of characters; a read
  that meets the end of the list is the read error of a closed stream.
* The capacity up to which `make([]string, 0, n)` succeeds depends on the
  platform and is a parameter (`maxCap`) of the frame decoder.
* A region held under `mu` is one atomic step; commands of different
  connections interleave at the granularity of such steps.
-/

namespace RedisFromScratch

/-! ## Machine integers -/

/-- Two's-complement wrap-around of a 64-bit signed integer. -/
def wrap64 (x : Int) : Int :=
  (x + 9223372036854775808) % 18446744073709551616 - 9223372036854775808

/-- Largest `int` (`1<<63 - 1`). -/
def maxInt64 : Int := 9223372036854775807

/-- Smallest `int` (`-1<<63`). -/
def minInt64 : Int := -9223372036854775808

/-! ## Library functions used by the source -/

/-- ASCII upper-casing; agrees with `strings.ToUpper` on ASCII strings. -/
def asciiUpper (s : String) : String :=
  String.mk (s.data.map Char.toUpper)

/-- Outcome of the digit loop of `strconv.ParseUint(s, 10, 64)`. -/
inductive UintScan where
  | ok (n : Nat)
  | invalid
  | overflow
  deriving DecidableEq, Repr

/-- The digit loop of `strconv.ParseUint` in base 10 with 64 bits: a byte that
is not a digit is a syntax error, and the loop stops with a range error as soon
as the accumulator would leave `uint64`. -/
def scanDigits : List Char → Nat → UintScan
  | [], n => UintScan.ok n
  | c :: cs, n =>
    if c.toNat < 48 ∨ 57 < c.toNat then UintScan.invalid
    else if n ≥ 1844674407370955162 then UintScan.overflow
    else if n * 10 + (c.toNat - 48) > 18446744073709551615 then UintScan.overflow
    else scanDigits cs (n * 10 + (c.toNat - 48))

/-- Go `strconv.ParseUint(s, 10, 64)`: the empty string is a syntax error. -/
def parseUint (cs : List Char) : UintScan :=
  match cs with
  | [] => UintScan.invalid
  | _ => scanDigits cs 0

/-- Signed range check of `strconv.ParseInt(s, 10, 0)` applied to the unsigned
scan: the pair is the returned value and whether `err == nil`. A syntax error
returns `0`; a range error returns the nearest `int64` bound. -/
def signedOf (neg : Bool) (u : UintScan) : Int × Bool :=
  match u with
  | UintScan.invalid => (0, false)
  | UintScan.overflow => if neg then (minInt64, false) else (maxInt64, false)
  | UintScan.ok n =>
    if neg then
      if n > 9223372036854775808 then (minInt64, false) else (-(n : Int), true)
    else
      if n ≥ 9223372036854775808 then (maxInt64, false) else ((n : Int), true)

/-- Go `strconv.Atoi`: an optional sign followed by decimal digits. The first
component is the returned `int`, the second is `err == nil`. -/
def Atoi (s : String) : Int × Bool :=
  match s.data with
  | [] => (0, false)
  | c :: cs =>
    if c = '+' then signedOf false (parseUint cs)
    else if c = '-' then signedOf true (parseUint cs)
    else signedOf false (parseUint (c :: cs))

/-- Go `fmt.Sprintf("%d", n)`. -/
def fmtInt (n : Int) : String := toString n

/-- Go `fmt.Sprintf("$%d\r\n%s\r\n", len(s), s)`: the bulk-string reply. -/
def bulk (s : String) : String :=
  "$" ++ fmtInt s.utf8ByteSize ++ "\r\n" ++ s ++ "\r\n"

/-- Go `fmt.Sprintf(":%d\r\n", n)`: the integer reply. -/
def intReply (n : Int) : String :=
  ":" ++ fmtInt n ++ "\r\n"

/-- Go `fmt.Sprintf("*%d\r\n", n)`: the array header. -/
def arrayHeader (n : Int) : String :=
  "*" ++ fmtInt n ++ "\r\n"

/-! ## Go maps -/

/-- A Go `map[string]β` as an association list. -/
abbrev GoMap (β : Type) := List (String × β)

/-- The two-valued lookup `v, ok := m[k]`. -/
def GoMap.find {β : Type} : GoMap β → String → Option β
  | [], _ => none
  | (k', v) :: rest, k => if k' = k then some v else GoMap.find rest k

/-- The builtin `delete(m, k)`. -/
def GoMap.delete {β : Type} (m : GoMap β) (k : String) : GoMap β :=
  m.filter (fun p => decide (p.1 ≠ k))

/-- The assignment `m[k] = v`. -/
def GoMap.set {β : Type} (m : GoMap β) (k : String) (v : β) : GoMap β :=
  (k, v) :: GoMap.delete m k

/-! ## Program state -/

/-- The package-level variables `store`, `expiry` and `lists`. -/
structure Store where
  store : GoMap String
  expiry : GoMap Int
  lists : GoMap (List String)
  deriving DecidableEq, Repr

/-- How the body of the `for` loop of `handleConnection` ends: `next` goes on to
read another frame (`continue`, `break` out of the `switch`, or falling off its
end), `close` is a `return` (the deferred `conn.Close()` runs), `fault` is a
run-time panic. -/
inductive Flow where
  | next
  | close
  | fault
  deriving DecidableEq, Repr

/-- State after a frame, bytes written to the connection, and control flow. -/
structure Result where
  st : Store
  out : String
  flow : Flow
  deriving DecidableEq, Repr

/-! ## Slices -/

/-- The single-valued lookup `lists[name]`: the nil slice when the key is absent. -/
def listAt (m : GoMap (List String)) (name : String) : List String :=
  (GoMap.find m name).getD []

/-- The index expression `list[i]`; `none` is the out-of-range panic. -/
def index (list : List String) (i : Int) : Option String :=
  if i < 0 then none else list.get? i.toNat

/-- The slice expression `list[:hi]`; `none` is the out-of-range panic. -/
def sliceTo (list : List String) (hi : Int) : Option (List String) :=
  if 0 ≤ hi ∧ hi ≤ list.length then some (list.take hi.toNat) else none

/-- The slice expression `list[lo:]`; `none` is the out-of-range panic. -/
def sliceFrom (list : List String) (lo : Int) : Option (List String) :=
  if 0 ≤ lo ∧ lo ≤ list.length then some (list.drop lo.toNat) else none

/-- The loop `for _, v := range values { conn.Write(bulk v) }`. -/
def writeBulks (values : List String) : String :=
  values.foldl (fun out v => out ++ bulk v) ""

/-- The loop `for i := start; i <= end; i++ { elem := list[i]; conn.Write(bulk elem) }`
of LRANGE (lines 265-268), started at `i` with `out` already written. `none` is a
panic of `list[i]` (or exhausted fuel). -/
def writeElems (list : List String) (end_ : Int) : Nat → Int → String → Option String
  | 0, _, _ => none
  | fuel + 1, i, out =>
    if i ≤ end_ then
      match index list i with
      | none => none
      | some elem => writeElems list end_ fuel (wrap64 (i + 1)) (out ++ bulk elem)
    else some out

/-! ## The background goroutine (lines 32-47) -/

/-- The body of `for key, exp := range expiry` (lines 39-43) for one entry. -/
def sweepStep (now : Int) (s : Store) (p : String × Int) : Store :=
  if now > p.2 then
    { s with store := GoMap.delete s.store p.1, expiry := GoMap.delete s.expiry p.1 }
  else s

/-- One iteration of the cleanup loop after its `time.Sleep`: every entry of
`expiry` with `now.After(exp)` is deleted from `store` and `expiry`. -/
def sweep (now : Int) (st : Store) : Store :=
  st.expiry.foldl (sweepStep now) st

/-- Successive cleanup iterations at the given instants. -/
def sweeps (ticks : List Int) (st : Store) : Store :=
  ticks.foldl (fun s t => sweep t s) st

/-- Invariant of the cleanup loop used for expiring keys: at key `k` the state
either has no value, or has value `v` with deadline `exp`. -/
def goneOrDue (k v : String) (exp : Int) (s : Store) : Prop :=
  GoMap.find s.store k = none ∨
    (GoMap.find s.store k = some v ∧ GoMap.find s.expiry k = some exp)

/-! ## The command switch of `handleConnection` (lines 94-365) -/

/-- Case `"SET"` (lines 104-153). -/
def cmdSET (ToUpper : String → String) (st : Store) (now : Int) (parts : List String) : Result :=
  match parts with
  | [_, key, value] =>
    ⟨{ st with store := GoMap.set st.store key value, expiry := GoMap.delete st.expiry key },
      "+OK\r\n", Flow.next⟩
  | [_, key, value, opt, ttl] =>
    if ToUpper opt = "PX" then
      if (Atoi ttl).2 = true then
        ⟨{ st with store := GoMap.set st.store key value,
                   expiry := GoMap.set st.expiry key (now + wrap64 (1000000 * (Atoi ttl).1)) },
          "+OK\r\n", Flow.next⟩
      else ⟨st, "-ERR invalid expire time\r\n", Flow.close⟩
    else if ToUpper opt = "EX" then
      if (Atoi ttl).2 = true then
        ⟨{ st with store := GoMap.set st.store key value,
                   expiry := GoMap.set st.expiry key (now + wrap64 (1000000000 * (Atoi ttl).1)) },
          "+OK\r\n", Flow.next⟩
      else ⟨st, "-ERR invalid expire time\r\n", Flow.close⟩
    else ⟨st, "-ERR wrong number of arguments for 'SET'\r\n", Flow.next⟩
  | _ => ⟨st, "-ERR wrong number of arguments for 'SET'\r\n", Flow.next⟩

/-- Case `"GET"` (lines 155-182). -/
def cmdGET (st : Store) (now : Int) (parts : List String) : Result :=
  match parts with
  | _ :: key :: _ =>
    match GoMap.find st.store key with
    | none => ⟨st, "$-1\r\n", Flow.next⟩
    | some val =>
      match GoMap.find st.expiry key with
      | none => ⟨st, bulk val, Flow.next⟩
      | some exp =>
        if now > exp then
          ⟨{ st with store := GoMap.delete st.store key, expiry := GoMap.delete st.expiry key },
            "$-1\r\n", Flow.next⟩
        else ⟨st, bulk val, Flow.next⟩
  | _ => ⟨st, "-ERR wrong number of arguments for 'GET'\r\n", Flow.next⟩

/-- Case `"ECHO"` (lines 184-191). -/
def cmdECHO (st : Store) (parts : List String) : Result :=
  match parts with
  | _ :: arg :: _ => ⟨st, bulk arg, Flow.next⟩
  | _ => ⟨st, "-ERR wrong number of arguments for 'ECHO'\r\n", Flow.next⟩

/-- Case `"RPUSH"` (lines 192-205). -/
def cmdRPUSH (st : Store) (parts : List String) : Result :=
  match parts with
  | _ :: name :: value :: rest =>
    let lists' := (value :: rest).foldl
      (fun ls v => GoMap.set ls name (listAt ls name ++ [v])) st.lists
    ⟨{ st with lists := lists' }, intReply (listAt lists' name).length, Flow.next⟩
  | _ => ⟨st, "", Flow.next⟩

/-- Case `"LPUSH"` (lines 206-217). -/
def cmdLPUSH (st : Store) (parts : List String) : Result :=
  match parts with
  | _ :: name :: value :: rest =>
    let lists' := (value :: rest).foldl
      (fun ls v => GoMap.set ls name ([v] ++ listAt ls name)) st.lists
    ⟨{ st with lists := lists' }, intReply (listAt lists' name).length, Flow.next⟩
  | _ => ⟨st, "", Flow.next⟩

/-- Case `"LRANGE"` (lines 218-271). The errors of both `strconv.Atoi` calls are
discarded. The element loop gets fuel `end - start + 2`: one unit for each of
its `end - start + 1` iterations and one for the final test. -/
def cmdLRANGE (st : Store) (parts : List String) : Result :=
  match parts with
  | _ :: key :: a :: b :: _ =>
    let start := (Atoi a).1
    let end_ := (Atoi b).1
    match GoMap.find st.lists key with
    | none => ⟨st, "*0\r\n", Flow.next⟩
    | some list =>
      if list.length = 0 then ⟨st, "*0\r\n", Flow.next⟩
      else
        let n : Int := list.length
        let start := if start < 0 then wrap64 (n + start) else start
        let start := if start < 0 then 0 else start
        let end_ := if end_ < 0 then wrap64 (n + end_) else end_
        let end_ := if end_ < 0 then 0 else end_
        let end_ := if end_ ≥ n then wrap64 (n - 1) else end_
        if start > end_ ∨ start ≥ n then ⟨st, "*0\r\n", Flow.next⟩
        else
          let count := wrap64 (wrap64 (end_ - start) + 1)
          match writeElems list end_ ((end_ - start).toNat + 2) start (arrayHeader count) with
          | none => ⟨st, arrayHeader count, Flow.fault⟩
          | some out => ⟨st, out, Flow.next⟩
  | _ => ⟨st, "-ERR wrong number of arguments for 'LRANGE'\r\n", Flow.next⟩

/-- Case `"LLEN"` (lines 272-279). -/
def cmdLLEN (st : Store) (parts : List String) : Result :=
  match parts with
  | _ :: name :: _ => ⟨st, intReply (listAt st.lists name).length, Flow.next⟩
  | _ => ⟨st, "", Flow.next⟩

/-- The count of LPOP / RPOP (lines 283-292, 324-333): `1` when no count is
given, the parsed count when it is a positive integer, `none` for the
`*0\r\n` reply. -/
def popCount (parts : List String) : Option Int :=
  match parts with
  | _ :: _ :: c :: _ =>
    if (Atoi c).2 = true ∧ (Atoi c).1 > 0 then some (Atoi c).1 else none
  | _ => some 1

/-- The reply of LPOP / RPOP (lines 310-318, 351-359) for the popped `values`
and the clamped `count`; `none` is the panic of `values[0]`. -/
def popReply (values : List String) (count : Int) : Option String :=
  if count = 1 then
    match index values 0 with
    | none => none
    | some val => some (bulk val)
  else some (arrayHeader values.length ++ writeBulks values)

/-- Case `"LPOP"` (lines 280-319). -/
def cmdLPOP (st : Store) (parts : List String) : Result :=
  match parts with
  | _ :: name :: _ =>
    match popCount parts with
    | none => ⟨st, "*0\r\n", Flow.next⟩
    | some count =>
      match GoMap.find st.lists name with
      | none => ⟨st, "$-1\r\n", Flow.next⟩
      | some list =>
        if list.length = 0 then ⟨st, "$-1\r\n", Flow.next⟩
        else
          let count := if count > list.length then (list.length : Int) else count
          match sliceTo list count, sliceFrom list count with
          | some values, some rest =>
            let st' := { st with lists := GoMap.set st.lists name rest }
            match popReply values count with
            | none => ⟨st', "", Flow.fault⟩
            | some out => ⟨st', out, Flow.next⟩
          | _, _ => ⟨st, "", Flow.fault⟩
  | _ => ⟨st, "", Flow.next⟩

/-- Case `"RPOP"` (lines 321-360). -/
def cmdRPOP (st : Store) (parts : List String) : Result :=
  match parts with
  | _ :: name :: _ =>
    match popCount parts with
    | none => ⟨st, "*0\r\n", Flow.next⟩
    | some count =>
      match GoMap.find st.lists name with
      | none => ⟨st, "$-1\r\n", Flow.next⟩
      | some list =>
        if list.length = 0 then ⟨st, "$-1\r\n", Flow.next⟩
        else
          let count := if count > list.length then (list.length : Int) else count
          match sliceFrom list (wrap64 (list.length - count)),
                sliceTo list (wrap64 (list.length - count)) with
          | some values, some rest =>
            let st' := { st with lists := GoMap.set st.lists name rest }
            match popReply values count with
            | none => ⟨st', "", Flow.fault⟩
            | some out => ⟨st', out, Flow.next⟩
          | _, _ => ⟨st, "", Flow.fault⟩
  | _ => ⟨st, "", Flow.next⟩

/-- The body of the session loop once a frame has been decoded into `parts`
(lines 94-365), run at instant `now`. An empty frame is skipped. -/
def handleCommand (ToUpper : String → String) (st : Store) (now : Int)
    (parts : List String) : Result :=
  match parts with
  | [] => ⟨st, "", Flow.next⟩
  | p0 :: _ =>
    let command := ToUpper p0
    if command = "PING" then ⟨st, "+PONG\r\n", Flow.next⟩
    else if command = "SET" then cmdSET ToUpper st now parts
    else if command = "GET" then cmdGET st now parts
    else if command = "ECHO" then cmdECHO st parts
    else if command = "RPUSH" then cmdRPUSH st parts
    else if command = "LPUSH" then cmdLPUSH st parts
    else if command = "LRANGE" then cmdLRANGE st parts
    else if command = "LLEN" then cmdLLEN st parts
    else if command = "LPOP" then cmdLPOP st parts
    else if command = "RPOP" then cmdRPOP st parts
    else ⟨st, "-ERR unknown command\r\n", Flow.next⟩

/-- The session loop of one connection over already decoded frames, each paired
with the instant at which it is handled: the final state and everything written
to the connection. A frame is handled only if every earlier one ended in
`Flow.next`. -/
def serve (ToUpper : String → String) : Store → List (Int × List String) → Store × String
  | st, [] => (st, "")
  | st, (now, parts) :: rest =>
    match (handleCommand ToUpper st now parts).flow with
    | Flow.next =>
      ((serve ToUpper (handleCommand ToUpper st now parts).st rest).1,
        (handleCommand ToUpper st now parts).out
          ++ (serve ToUpper (handleCommand ToUpper st now parts).st rest).2)
    | _ => ((handleCommand ToUpper st now parts).st, (handleCommand ToUpper st now parts).out)

/-! ## Frame decoding in `handleConnection` (lines 63-96) -/

/-- White space as `unicode.IsSpace` defines it; `strings.TrimSpace` and the
`fmt` scanner use the same set. -/
def isSpace (c : Char) : Bool :=
  decide ((9 ≤ c.toNat ∧ c.toNat ≤ 13) ∨ c.toNat = 32 ∨ c.toNat = 133 ∨ c.toNat = 160 ∨
    c.toNat = 5760 ∨ (8192 ≤ c.toNat ∧ c.toNat ≤ 8202) ∨ c.toNat = 8232 ∨ c.toNat = 8233 ∨
    c.toNat = 8239 ∨ c.toNat = 8287 ∨ c.toNat = 12288)

/-- Go `strings.TrimSpace` on the characters of a string: trailing and leading
white space removed. -/
def trimChars (cs : List Char) : List Char :=
  (cs.rdropWhile isSpace).dropWhile isSpace

/-- Go `strings.TrimSpace`. -/
def TrimSpace (s : String) : String :=
  String.mk (trimChars s.data)

/-- Go `reader.ReadString('\n')` on the bytes still to come on the connection:
the line up to and including the first newline, and what follows it; `none` is
the error returned when the stream ends before a newline. -/
def readString : List Char → Option (List Char × List Char)
  | [] => none
  | c :: cs =>
    if c = '\n' then some ([c], cs)
    else
      match readString cs with
      | none => none
      | some (line, rest) => some (c :: line, rest)

/-- A decimal digit, `'0'` to `'9'`. -/
def isDecimalDigit (c : Char) : Bool :=
  decide (48 ≤ c.toNat ∧ c.toNat ≤ 57)

/-- The scanner's `SkipSpace` as `fmt.Sscanf` runs it: white space is skipped, a
newline is an error (`none`). -/
def skipSpace : List Char → Option (List Char)
  | [] => some []
  | c :: cs =>
    if c = '\n' then none
    else if isSpace c then skipSpace cs
    else some (c :: cs)

/-- The value of `n` after `var n int; fmt.Sscanf(line, "*%d", &n)` (lines
76-77): the literal `*`, optional white space, an optional sign and at least
one decimal digit, converted by `strconv.ParseInt`; whatever follows the digits
is ignored. When the scan fails (no digits, or a number outside `int64`) the
error is discarded and `n` keeps its zero value. -/
def scanCount (line : List Char) : Int :=
  match line with
  | [] => 0
  | c :: rest =>
    if c = '*' then
      match skipSpace rest with
      | none => 0
      | some [] => 0
      | some (d :: ds) =>
        if d = '+' ∨ d = '-' then
          if ds.takeWhile isDecimalDigit = [] then 0
          else if (Atoi (String.mk (d :: ds.takeWhile isDecimalDigit))).2 = true then
            (Atoi (String.mk (d :: ds.takeWhile isDecimalDigit))).1
          else 0
        else
          if (d :: ds).takeWhile isDecimalDigit = [] then 0
          else if (Atoi (String.mk ((d :: ds).takeWhile isDecimalDigit))).2 = true then
            (Atoi (String.mk ((d :: ds).takeWhile isDecimalDigit))).1
          else 0
    else 0

/-- The loop of lines 80-92 for `k` remaining arguments: a bulk-string header
line is read and dropped, the next line is read and trimmed. `none` is a read
error (the handler returns). -/
def readParts : Nat → List Char → Option (List String × List Char)
  | 0, input => some ([], input)
  | k + 1, input =>
    match readString input with
    | none => none
    | some (_, afterHeader) =>
      match readString afterHeader with
      | none => none
      | some (part, afterPart) =>
        match readParts k afterPart with
        | none => none
        | some (ps, rest) => some (TrimSpace (String.mk part) :: ps, rest)

/-- What reading one frame ends in: the decoded `parts` with the rest of the
stream, a `return` of the handler after writing `out` (the connection is
closed), or a run-time panic. -/
inductive Decoded where
  | parts (ps : List String) (rest : List Char)
  | closed (out : String)
  | fault
  deriving DecidableEq, Repr

/-- Lines 64-92 on the bytes still to come on the connection. `maxCap` is the
largest capacity for which the run-time library carries out
`make([]string, 0, n)`; a negative or larger `n` is a panic. -/
def readFrame (maxCap : Nat) (input : List Char) : Decoded :=
  match readString input with
  | none => Decoded.closed ""
  | some (line, rest) =>
    if (trimChars line).head? = some '*' then
      if scanCount (trimChars line) < 0 ∨ scanCount (trimChars line) > maxCap then
        Decoded.fault
      else
        match readParts (scanCount (trimChars line)).toNat rest with
        | none => Decoded.closed ""
        | some (ps, rest') => Decoded.parts ps rest'
    else Decoded.closed "-ERR Protocol error\r\n"

/-- The request frame of the wire protocol for the arguments `args`, as a client
sends it (spec 4.1): `*<n>\r\n`, then `$<len>\r\n<arg>\r\n` for each argument. -/
def specRequestFrame (args : List String) : List Char :=
  ('*' :: (fmtInt args.length).data ++ ['\r', '\n']) ++
    args.flatMap (fun a =>
      ('$' :: (fmtInt a.utf8ByteSize).data ++ ['\r', '\n']) ++ (a.data ++ ['\r', '\n']))

/-! ## Reply encodings of the wire protocol (spec 4.1) -/

/-- The bulk-string reply as the spec words it: `$<byte-length>\r\n<bytes>\r\n`. -/
def specBulk (bytes : String) : String :=
  "$" ++ fmtInt bytes.utf8ByteSize ++ "\r\n" ++ bytes ++ "\r\n"

/-- The array reply as the spec words it: `*<N>\r\n` followed by the `N`
bulk-string encodings of the elements. -/
def specArray (elems : List String) : String :=
  "*" ++ fmtInt elems.length ++ "\r\n" ++ String.join (elems.map specBulk)

/-! ## Critical sections

`mu` makes each locked region atomic. SET, the pushes and the pops take the lock
once around everything they read and write, so such a command is one atomic
step (`handleCommand`). GET takes the read lock for its two lookups (lines
159-162), releases it, and only then, if the entry it saw is expired, takes the
write lock for the two deletes (lines 170-173): two atomic steps, between which
commands of other connections may run. -/

/-- The locals of GET after its read-locked region: `val, ok := store[key]` and
`exp, hasExpiry := expiry[key]`. -/
structure GetRead where
  val : Option String
  exp : Option Int
  deriving DecidableEq, Repr

/-- First atomic step of GET (lines 159-162). -/
def getRead (st : Store) (key : String) : GetRead :=
  ⟨GoMap.find st.store key, GoMap.find st.expiry key⟩

/-- The rest of GET (lines 164-179) on the locals `r`, run at instant `now` on
the state `st` that the store has by then. -/
def getFinish (r : GetRead) (st : Store) (now : Int) (key : String) : Result :=
  match r.val with
  | none => ⟨st, "$-1\r\n", Flow.next⟩
  | some val =>
    match r.exp with
    | none => ⟨st, bulk val, Flow.next⟩
    | some exp =>
      if now > exp then
        ⟨{ st with store := GoMap.delete st.store key, expiry := GoMap.delete st.expiry key },
          "$-1\r\n", Flow.next⟩
      else ⟨st, bulk val, Flow.next⟩

/-- Single-step commands of several connections, run one after the other in the
order in which they take the lock: the final state and the reply of each. -/
def runAtomic (ToUpper : String → String) : Store → List (Int × List String) → Store × List String
  | st, [] => (st, [])
  | st, (now, parts) :: rest =>
    ((runAtomic ToUpper (handleCommand ToUpper st now parts).st rest).1,
      (handleCommand ToUpper st now parts).out
        :: (runAtomic ToUpper (handleCommand ToUpper st now parts).st rest).2)

/-! ## Lemmas on maps -/

theorem find_delete_self {β : Type} (m : GoMap β) (k : String) :
    GoMap.find (GoMap.delete m k) k = none := by
  induction m with
  | nil => rfl
  | cons p rest ih =>
    obtain ⟨k', v⟩ := p
    by_cases h : k' = k
    · simpa [GoMap.delete, List.filter_cons, h] using ih
    · simpa [GoMap.delete, List.filter_cons, h, GoMap.find] using ih

theorem find_delete_ne {β : Type} (m : GoMap β) (k k' : String) (hne : k' ≠ k) :
    GoMap.find (GoMap.delete m k') k = GoMap.find m k := by
  induction m with
  | nil => rfl
  | cons p rest ih =>
    obtain ⟨k2, v⟩ := p
    by_cases h : k2 = k'
    · subst h
      simpa [GoMap.delete, List.filter_cons, GoMap.find, hne] using ih
    · by_cases h2 : k2 = k
      · subst h2
        simp [GoMap.delete, List.filter_cons, GoMap.find, h]
      · simpa [GoMap.delete, List.filter_cons, GoMap.find, h, h2] using ih

theorem find_set_self {β : Type} (m : GoMap β) (k : String) (v : β) :
    GoMap.find (GoMap.set m k v) k = some v := by
  simp [GoMap.set, GoMap.find]

theorem find_set_ne {β : Type} (m : GoMap β) (k k' : String) (v : β) (hne : k' ≠ k) :
    GoMap.find (GoMap.set m k' v) k = GoMap.find m k := by
  simp [GoMap.set, GoMap.find, hne, find_delete_ne m k k' hne]

theorem find_eq_none_iff {β : Type} (m : GoMap β) (k : String) :
    GoMap.find m k = none ↔ ∀ p ∈ m, p.1 ≠ k := by
  induction m with
  | nil => simp [GoMap.find]
  | cons p rest ih =>
    obtain ⟨k', v⟩ := p
    by_cases h : k' = k
    · simp [GoMap.find, h]
    · simp [GoMap.find, h, ih]

/-! ## Lemmas on the dispatcher -/

theorem handleCommand_SET (ToUpper : String → String) (st : Store) (now : Int)
    (c : String) (args : List String) (h : ToUpper c = "SET") :
    handleCommand ToUpper st now (c :: args) = cmdSET ToUpper st now (c :: args) := by
  simp [handleCommand, h]

theorem handleCommand_GET (ToUpper : String → String) (st : Store) (now : Int)
    (c : String) (args : List String) (h : ToUpper c = "GET") :
    handleCommand ToUpper st now (c :: args) = cmdGET st now (c :: args) := by
  simp [handleCommand, h]

theorem handleCommand_ECHO (ToUpper : String → String) (st : Store) (now : Int)
    (c : String) (args : List String) (h : ToUpper c = "ECHO") :
    handleCommand ToUpper st now (c :: args) = cmdECHO st (c :: args) := by
  simp [handleCommand, h]

theorem handleCommand_RPUSH (ToUpper : String → String) (st : Store) (now : Int)
    (c : String) (args : List String) (h : ToUpper c = "RPUSH") :
    handleCommand ToUpper st now (c :: args) = cmdRPUSH st (c :: args) := by
  simp [handleCommand, h]

theorem handleCommand_LPUSH (ToUpper : String → String) (st : Store) (now : Int)
    (c : String) (args : List String) (h : ToUpper c = "LPUSH") :
    handleCommand ToUpper st now (c :: args) = cmdLPUSH st (c :: args) := by
  simp [handleCommand, h]

theorem handleCommand_LRANGE (ToUpper : String → String) (st : Store) (now : Int)
    (c : String) (args : List String) (h : ToUpper c = "LRANGE") :
    handleCommand ToUpper st now (c :: args) = cmdLRANGE st (c :: args) := by
  simp [handleCommand, h]

theorem handleCommand_LLEN (ToUpper : String → String) (st : Store) (now : Int)
    (c : String) (args : List String) (h : ToUpper c = "LLEN") :
    handleCommand ToUpper st now (c :: args) = cmdLLEN st (c :: args) := by
  simp [handleCommand, h]

theorem handleCommand_LPOP (ToUpper : String → String) (st : Store) (now : Int)
    (c : String) (args : List String) (h : ToUpper c = "LPOP") :
    handleCommand ToUpper st now (c :: args) = cmdLPOP st (c :: args) := by
  simp [handleCommand, h]

theorem handleCommand_RPOP (ToUpper : String → String) (st : Store) (now : Int)
    (c : String) (args : List String) (h : ToUpper c = "RPOP") :
    handleCommand ToUpper st now (c :: args) = cmdRPOP st (c :: args) := by
  simp [handleCommand, h]

/-! ## Lemmas on the cleanup loop -/

theorem sweepFold_untouched (now : Int) (k : String) (entries : List (String × Int))
    (s : Store) (h : ∀ p ∈ entries, p.1 ≠ k) :
    GoMap.find (entries.foldl (sweepStep now) s).store k = GoMap.find s.store k ∧
    GoMap.find (entries.foldl (sweepStep now) s).expiry k = GoMap.find s.expiry k := by
  induction entries generalizing s with
  | nil => exact ⟨rfl, rfl⟩
  | cons p rest ih =>
    have hp : p.1 ≠ k := h p (List.mem_cons_self _ _)
    have hrest : ∀ q ∈ rest, q.1 ≠ k := fun q hq => h q (List.mem_cons_of_mem _ hq)
    have step : GoMap.find (sweepStep now s p).store k = GoMap.find s.store k ∧
        GoMap.find (sweepStep now s p).expiry k = GoMap.find s.expiry k := by
      unfold sweepStep
      split
      · exact ⟨find_delete_ne _ _ _ hp, find_delete_ne _ _ _ hp⟩
      · exact ⟨rfl, rfl⟩
    rw [List.foldl_cons]
    exact ⟨(ih _ hrest).1.trans step.1, (ih _ hrest).2.trans step.2⟩

/-- A key without expiration keeps its value through a cleanup iteration. -/
theorem sweep_keeps_persistent (now : Int) (k : String) (st : Store)
    (h : GoMap.find st.expiry k = none) :
    GoMap.find (sweep now st).store k = GoMap.find st.store k ∧
    GoMap.find (sweep now st).expiry k = none := by
  have hk := (find_eq_none_iff st.expiry k).mp h
  have := sweepFold_untouched now k st.expiry st hk
  exact ⟨this.1, this.2.trans h⟩

theorem sweeps_keeps_persistent (ticks : List Int) (k : String) (st : Store)
    (h : GoMap.find st.expiry k = none) :
    GoMap.find (sweeps ticks st).store k = GoMap.find st.store k ∧
    GoMap.find (sweeps ticks st).expiry k = none := by
  induction ticks generalizing st with
  | nil => exact ⟨rfl, h⟩
  | cons t rest ih =>
    have h1 := sweep_keeps_persistent t k st h
    have h2 := ih (sweep t st) h1.2
    exact ⟨h2.1.trans h1.1, h2.2⟩

theorem sweepStep_goneOrDue (now : Int) (k v : String) (exp : Int) (s : Store)
    (p : String × Int) (h : goneOrDue k v exp s) : goneOrDue k v exp (sweepStep now s p) := by
  unfold sweepStep
  split
  · by_cases hp : p.1 = k
    · left
      rw [hp]
      exact find_delete_self _ _
    · unfold goneOrDue
      rw [show GoMap.find (GoMap.delete s.store p.1) k = GoMap.find s.store k from
            find_delete_ne _ _ _ hp,
          show GoMap.find (GoMap.delete s.expiry p.1) k = GoMap.find s.expiry k from
            find_delete_ne _ _ _ hp]
      exact h
  · exact h

theorem sweepFold_goneOrDue (now : Int) (k v : String) (exp : Int)
    (entries : List (String × Int)) (s : Store) (h : goneOrDue k v exp s) :
    goneOrDue k v exp (entries.foldl (sweepStep now) s) := by
  induction entries generalizing s with
  | nil => exact h
  | cons p rest ih => exact ih _ (sweepStep_goneOrDue now k v exp s p h)

theorem sweeps_goneOrDue (ticks : List Int) (k v : String) (exp : Int) (st : Store)
    (h : goneOrDue k v exp st) : goneOrDue k v exp (sweeps ticks st) := by
  induction ticks generalizing st with
  | nil => exact h
  | cons t rest ih => exact ih _ (sweepFold_goneOrDue t k v exp st.expiry st h)

/-- The arithmetic of a TTL: a non-negative product never wraps to a later deadline. -/
theorem wrap64_le_of_nonneg (x : Int) (h : 0 ≤ x) : wrap64 x ≤ x := by
  unfold wrap64
  omega

theorem wrap64_of_range (x : Int) (h1 : -9223372036854775808 ≤ x)
    (h2 : x < 9223372036854775808) : wrap64 x = x := by
  unfold wrap64
  omega

/-! ## Decimal rendering and parsing -/

theorem digitChar_toNat (d : Nat) (h : d < 10) : (Nat.digitChar d).toNat = 48 + d := by
  interval_cases d <;> rfl

theorem scanDigits_digit (d n : Nat) (cs : List Char) (hd : d < 10)
    (hn : n * 10 + d ≤ 18446744073709551615) :
    scanDigits (Nat.digitChar d :: cs) n = scanDigits cs (n * 10 + d) := by
  have h1 : ¬ ((Nat.digitChar d).toNat < 48 ∨ 57 < (Nat.digitChar d).toNat) := by
    rw [digitChar_toNat d hd]; omega
  have h2 : ¬ (n ≥ 1844674407370955162) := by omega
  have h3 : ¬ (n * 10 + ((Nat.digitChar d).toNat - 48) > 18446744073709551615) := by
    rw [digitChar_toNat d hd]; omega
  have h4 : (Nat.digitChar d).toNat - 48 = d := by
    rw [digitChar_toNat d hd]; omega
  rw [scanDigits, if_neg h1, if_neg h2, if_neg h3, h4]

theorem scanDigits_toDigitsCore (fuel : Nat) :
    ∀ (n : Nat) (ds : List Char), n < fuel → n ≤ 18446744073709551615 →
      scanDigits (Nat.toDigitsCore 10 fuel n ds) 0 = scanDigits ds n := by
  induction fuel with
  | zero => intro n ds h; omega
  | succ fuel ih =>
    intro n ds hf hn
    unfold Nat.toDigitsCore
    by_cases h0 : n / 10 = 0
    · simp only [h0, if_true]
      rw [scanDigits_digit (n % 10) 0 ds (Nat.mod_lt _ (by decide)) (by omega)]
      congr 1
      omega
    · simp only [h0, if_false]
      rw [ih (n / 10) _ (by omega) (by omega),
        scanDigits_digit (n % 10) (n / 10) ds (Nat.mod_lt _ (by decide)) (by omega)]
      congr 1
      omega

theorem toDigitsCore_ne_nil (fuel : Nat) :
    ∀ (n : Nat) (ds : List Char), Nat.toDigitsCore 10 (fuel + 1) n ds ≠ [] := by
  induction fuel with
  | zero =>
    intro n ds
    unfold Nat.toDigitsCore
    by_cases h0 : n / 10 = 0
    · simp [h0]
    · simp [h0, Nat.toDigitsCore]
  | succ fuel ih =>
    intro n ds
    unfold Nat.toDigitsCore
    by_cases h0 : n / 10 = 0
    · simp [h0]
    · simp only [h0, if_false]
      exact ih _ _

theorem parseUint_repr (n : Nat) (hn : n ≤ 18446744073709551615) :
    ∃ c cs, (Nat.repr n).data = c :: cs ∧ c ≠ '+' ∧ c ≠ '-' ∧
      parseUint (c :: cs) = UintScan.ok n := by
  have hscan : scanDigits (Nat.toDigits 10 n) 0 = UintScan.ok n := by
    unfold Nat.toDigits
    rw [scanDigits_toDigitsCore (n + 1) n [] (by omega) hn]
    rfl
  have hdata : (Nat.repr n).data = Nat.toDigits 10 n := rfl
  rw [hdata]
  cases hds : Nat.toDigits 10 n with
  | nil => exact absurd hds (toDigitsCore_ne_nil n n [])
  | cons c cs =>
    rw [hds] at hscan
    refine ⟨c, cs, rfl, ?_, ?_, hscan⟩
    · rintro rfl
      simp [scanDigits] at hscan
    · rintro rfl
      simp [scanDigits] at hscan

/-- Every `int64` is read back by `strconv.Atoi` from its `%d` rendering. -/
theorem Atoi_fmtInt (i : Int) (h1 : minInt64 ≤ i) (h2 : i ≤ maxInt64) :
    Atoi (fmtInt i) = (i, true) := by
  unfold minInt64 at h1
  unfold maxInt64 at h2
  cases i with
  | ofNat n =>
    have hn : n ≤ 9223372036854775807 := by
      have : ((n : Nat) : Int) ≤ 9223372036854775807 := h2
      omega
    obtain ⟨c, cs, hdata, hp, hm, hparse⟩ := parseUint_repr n (by omega)
    have hfmt : (fmtInt (Int.ofNat n)).data = c :: cs := hdata
    unfold Atoi
    rw [hfmt]
    simp only [if_neg hp, if_neg hm, hparse, signedOf]
    have : ¬ (n ≥ 9223372036854775808) := by omega
    simp [this]
  | negSucc m =>
    have hm : m + 1 ≤ 9223372036854775808 := by
      have := Int.negSucc_eq m
      omega
    obtain ⟨c, cs, hdata, _, _, hparse⟩ := parseUint_repr (m + 1) (by omega)
    have hfmt : (fmtInt (Int.negSucc m)).data = '-' :: c :: cs := by
      show ("-" ++ Nat.repr (m + 1)).data = '-' :: c :: cs
      rw [String.data_append, hdata]
      rfl
    unfold Atoi
    rw [hfmt]
    have hpm : ¬ ('-' = '+') := by decide
    simp only [if_neg hpm, if_true, hparse, signedOf]
    have : ¬ (m + 1 > 9223372036854775808) := by omega
    simp [this, Int.negSucc_eq]

/-! ## C1 -/

/-- C1: after a `SET k v` without TTL, whatever the state before it and whatever
cleanup iterations run afterwards, `GET k` replies with the bulk string of `v`
(and the `SET` itself replies `+OK`). -/
theorem set_then_get (ToUpper : String → String) (st : Store) (cset cget k v : String)
    (t0 t1 : Int) (ticks : List Int)
    (hset : ToUpper cset = "SET") (hget : ToUpper cget = "GET") :
    (handleCommand ToUpper st t0 [cset, k, v]).out = "+OK\r\n" ∧
    (handleCommand ToUpper
        (sweeps ticks (handleCommand ToUpper st t0 [cset, k, v]).st) t1 [cget, k]).out
      = bulk v := by
  rw [handleCommand_SET ToUpper st t0 cset [k, v] hset, handleCommand_GET ToUpper _ t1 cget [k] hget]
  refine ⟨rfl, ?_⟩
  have hs := sweeps_keeps_persistent ticks k (cmdSET ToUpper st t0 [cset, k, v]).st
    (by simp [cmdSET, find_delete_self])
  have hv : GoMap.find (cmdSET ToUpper st t0 [cset, k, v]).st.store k = some v := by
    simp [cmdSET, find_set_self]
  rw [hv] at hs
  simp only [cmdGET, hs.1, hs.2]

/-- Witness for C1: `SET k v1 PX 10; SET k v2` and a cleanup iteration, then `GET k`. -/
theorem set_then_get_witness :
    asciiUpper "set" = "SET" ∧ asciiUpper "GET" = "GET" ∧
    (handleCommand asciiUpper
        (sweeps [20000000]
          (handleCommand asciiUpper
            (handleCommand asciiUpper ⟨[], [], []⟩ 0 ["SET", "k", "v1", "PX", "10"]).st
            5 ["set", "k", "v2"]).st)
        30000000 ["GET", "k"]).out = bulk "v2" :=
  ⟨by decide, by decide,
    (set_then_get asciiUpper
      (handleCommand asciiUpper ⟨[], [], []⟩ 0 ["SET", "k", "v1", "PX", "10"]).st
      "set" "GET" "k" "v2" 5 30000000 [20000000] (by decide) (by decide)).2⟩

/-! ## C2 -/

/-- C2 (as stated, refuted): `SET k v PX 10` handled at instant 0 and `GET k`
handled exactly 10ms later: the reply is the bulk string of `v`, not the null
bulk, because the deadline test `time.Now().After(exp)` is strict. -/
theorem get_at_deadline_still_live :
    Atoi "10" = (10, true) ∧ (10000000 : Int) ≥ 0 + 1000000 * 10 ∧
    (handleCommand asciiUpper
        (handleCommand asciiUpper ⟨[], [], []⟩ 0 ["SET", "k", "v", "PX", "10"]).st
        10000000 ["GET", "k"]).out = "$1\r\nv\r\n" ∧
    (handleCommand asciiUpper
        (handleCommand asciiUpper ⟨[], [], []⟩ 0 ["SET", "k", "v", "PX", "10"]).st
        10000000 ["GET", "k"]).out ≠ "$-1\r\n" := by
  decide

/-- C2 (amended): after `SET k v PX <arg>` handled at `t0`, where `strconv.Atoi`
reads `<arg>` as the non-negative integer `ms`, a `GET k` handled at any instant
strictly later than `t0 + ms` milliseconds replies with the null bulk, whatever
cleanup iterations ran in between. -/
theorem get_after_deadline_null (ToUpper : String → String) (st : Store)
    (cset cget k v opt arg : String) (ms t0 t : Int) (ticks : List Int)
    (hset : ToUpper cset = "SET") (hget : ToUpper cget = "GET") (hpx : ToUpper opt = "PX")
    (harg : Atoi arg = (ms, true)) (hms : 0 ≤ ms) (ht : t > t0 + 1000000 * ms) :
    (handleCommand ToUpper st t0 [cset, k, v, opt, arg]).out = "+OK\r\n" ∧
    (handleCommand ToUpper
        (sweeps ticks (handleCommand ToUpper st t0 [cset, k, v, opt, arg]).st) t [cget, k]).out
      = "$-1\r\n" := by
  rw [handleCommand_SET ToUpper st t0 cset [k, v, opt, arg] hset,
    handleCommand_GET ToUpper _ t cget [k] hget]
  have hst : (cmdSET ToUpper st t0 [cset, k, v, opt, arg]) =
      ⟨{ st with store := GoMap.set st.store k v,
                 expiry := GoMap.set st.expiry k (t0 + wrap64 (1000000 * ms)) },
        "+OK\r\n", Flow.next⟩ := by
    simp [cmdSET, hpx, harg]
  rw [hst]
  refine ⟨rfl, ?_⟩
  have hinv := sweeps_goneOrDue ticks k v (t0 + wrap64 (1000000 * ms))
    { st with store := GoMap.set st.store k v,
              expiry := GoMap.set st.expiry k (t0 + wrap64 (1000000 * ms)) }
    (Or.inr ⟨find_set_self _ _ _, find_set_self _ _ _⟩)
  have hw := wrap64_le_of_nonneg (1000000 * ms) (by omega)
  rcases hinv with h | ⟨h1, h2⟩
  · simp only [cmdGET, h]
  · have hlt : t > t0 + wrap64 (1000000 * ms) := by omega
    simp only [cmdGET, h1, h2, hlt, if_true]

/-- Witness for C2 (amended): `SET k v PX 10` at 0, a cleanup iteration at 5ms,
`GET k` one nanosecond after the deadline. -/
theorem get_after_deadline_null_witness :
    asciiUpper "SET" = "SET" ∧ asciiUpper "get" = "GET" ∧ asciiUpper "px" = "PX" ∧
    Atoi "10" = (10, true) ∧
    (handleCommand asciiUpper
        (sweeps [5000000]
          (handleCommand asciiUpper ⟨[("k", "old")], [], []⟩ 0 ["SET", "k", "v", "px", "10"]).st)
        10000001 ["get", "k"]).out = "$-1\r\n" :=
  ⟨by decide, by decide, by decide, by decide,
    (get_after_deadline_null asciiUpper ⟨[("k", "old")], [], []⟩ "SET" "get" "k" "v" "px" "10"
      10 0 10000001 [5000000] (by decide) (by decide) (by decide) (by decide) (by decide)
      (by decide)).2⟩

/-! ## Lemmas on replies and slices -/

theorem foldl_bulk_acc (vs : List String) (acc : String) :
    vs.foldl (fun out v => out ++ bulk v) acc = acc ++ writeBulks vs := by
  induction vs generalizing acc with
  | nil => simp [writeBulks]
  | cons x xs ih =>
    have hx : writeBulks (x :: xs) = bulk x ++ writeBulks xs := by
      show List.foldl (fun out v => out ++ bulk v) "" (x :: xs) = bulk x ++ writeBulks xs
      rw [List.foldl_cons, ih]
      simp
    rw [List.foldl_cons, ih, hx, String.append_assoc]

theorem writeBulks_cons (x : String) (xs : List String) :
    writeBulks (x :: xs) = bulk x ++ writeBulks xs := by
  rw [writeBulks, List.foldl_cons, foldl_bulk_acc]
  simp

theorem writeElems_window (list : List String) (m : Nat) (hm : m < list.length)
    (hlen : (list.length : Int) < 9223372036854775808) :
    ∀ (fuel j : Nat) (out : String), m + 1 - j < fuel →
      writeElems list (m : Int) fuel (j : Int) out
        = some (out ++ writeBulks ((list.drop j).take (m + 1 - j))) := by
  intro fuel
  induction fuel with
  | zero => intro j out h; omega
  | succ fuel ih =>
    intro j out h
    unfold writeElems
    by_cases hj : (j : Int) ≤ (m : Int)
    · have hjm : j ≤ m := by exact_mod_cast hj
      have hjl : j < list.length := by omega
      have hidx : index list (j : Int) = some (list.get ⟨j, hjl⟩) := by
        unfold index
        have : ¬ ((j : Int) < 0) := by omega
        simp [this, List.get?_eq_get hjl]
      have hw : wrap64 ((j : Int) + 1) = ((j + 1 : Nat) : Int) := by
        rw [wrap64_of_range _ (by omega) (by omega)]
        push_cast
        rfl
      rw [if_pos hj, hidx]
      simp only []
      rw [hw, ih (j + 1) _ (by omega)]
      have hsplit : (list.drop j).take (m + 1 - j)
          = list.get ⟨j, hjl⟩ :: (list.drop (j + 1)).take (m + 1 - (j + 1)) := by
        have h1 : m + 1 - j = (m + 1 - (j + 1)) + 1 := by omega
        rw [h1, List.drop_eq_getElem_cons hjl, List.take_succ_cons]
        rfl
      rw [hsplit, writeBulks_cons, String.append_assoc]
    · have hjm : m + 1 - j = 0 := by
        have : m < j := by exact_mod_cast (not_le.mp hj)
        omega
      rw [if_neg hj, hjm]
      simp [writeBulks]

theorem signedOf_range (neg : Bool) (u : UintScan) :
    -9223372036854775808 ≤ (signedOf neg u).1 ∧ (signedOf neg u).1 < 9223372036854775808 := by
  cases u with
  | invalid => simp [signedOf]
  | overflow => cases neg <;> simp [signedOf, minInt64, maxInt64]
  | ok n =>
    cases neg
    · by_cases h : n ≥ 9223372036854775808
      · simp [signedOf, h, maxInt64]
      · simp only [signedOf, h, if_false, Bool.false_eq_true]
        omega
    · by_cases h : n > 9223372036854775808
      · simp [signedOf, h, minInt64]
      · simp only [signedOf, h, if_true, if_false]
        omega

/-- The value returned by `strconv.Atoi` is an `int64`, with or without error. -/
theorem Atoi_range (s : String) :
    -9223372036854775808 ≤ (Atoi s).1 ∧ (Atoi s).1 < 9223372036854775808 := by
  unfold Atoi
  split
  · simp
  · split
    · exact signedOf_range _ _
    · split
      · exact signedOf_range _ _
      · exact signedOf_range _ _

/-- LRANGE on a non-empty list, in terms of the normalised bounds `s` and `e`. -/
theorem cmdLRANGE_normalised (st : Store) (c key a b : String) (extra : List String)
    (L : List String) (s e : Int)
    (hfind : GoMap.find st.lists key = some L) (hne : L ≠ [])
    (hlen : (L.length : Int) < 9223372036854775808)
    (hs : s = max 0 (if (Atoi a).1 < 0 then (Atoi a).1 + L.length else (Atoi a).1))
    (he : e = min ((L.length : Int) - 1)
      (max 0 (if (Atoi b).1 < 0 then (Atoi b).1 + L.length else (Atoi b).1))) :
    cmdLRANGE st (c :: key :: a :: b :: extra) =
      ⟨st,
        if s > e ∨ s ≥ L.length then "*0\r\n"
        else arrayHeader (e - s + 1) ++ writeBulks ((L.drop s.toNat).take (e - s + 1).toNat),
        Flow.next⟩ := by
  have hn : 0 < L.length := List.length_pos.mpr hne
  have hn0 : L.length ≠ 0 := by omega
  obtain ⟨ha1, ha2⟩ := Atoi_range a
  obtain ⟨hb1, hb2⟩ := Atoi_range b
  have hS : (if (if (Atoi a).1 < 0 then wrap64 ((L.length : Int) + (Atoi a).1) else (Atoi a).1) < 0
      then 0 else (if (Atoi a).1 < 0 then wrap64 ((L.length : Int) + (Atoi a).1) else (Atoi a).1))
      = s := by
    rw [hs]
    by_cases h : (Atoi a).1 < 0
    · rw [if_pos h, if_pos h, wrap64_of_range _ (by omega) (by omega)]
      by_cases h2 : (L.length : Int) + (Atoi a).1 < 0
      · rw [if_pos h2]; omega
      · rw [if_neg h2]; omega
    · rw [if_neg h, if_neg h, if_neg h]; omega
  have hE0 : (if (if (Atoi b).1 < 0 then wrap64 ((L.length : Int) + (Atoi b).1) else (Atoi b).1) < 0
      then 0 else (if (Atoi b).1 < 0 then wrap64 ((L.length : Int) + (Atoi b).1) else (Atoi b).1))
      = max 0 (if (Atoi b).1 < 0 then (Atoi b).1 + L.length else (Atoi b).1) := by
    by_cases h : (Atoi b).1 < 0
    · rw [if_pos h, if_pos h, wrap64_of_range _ (by omega) (by omega)]
      by_cases h2 : (L.length : Int) + (Atoi b).1 < 0
      · rw [if_pos h2]; omega
      · rw [if_neg h2]; omega
    · rw [if_neg h, if_neg h, if_neg h]; omega
  unfold cmdLRANGE
  simp only [hfind, hn0, if_false]
  rw [hS, hE0]
  have hE : (if (max 0 (if (Atoi b).1 < 0 then (Atoi b).1 + (L.length : Int) else (Atoi b).1))
        ≥ (L.length : Int) then wrap64 ((L.length : Int) - 1)
      else max 0 (if (Atoi b).1 < 0 then (Atoi b).1 + (L.length : Int) else (Atoi b).1)) = e := by
    rw [he, wrap64_of_range _ (by omega) (by omega)]
    split <;> omega
  rw [hE]
  have hs0 : 0 ≤ s := by rw [hs]; exact le_max_left _ _
  have hen : e < L.length := by
    have : e ≤ (L.length : Int) - 1 := by rw [he]; exact min_le_left _ _
    omega
  clear hS hE0 hE hs he
  by_cases hgo : s > e ∨ s ≥ L.length
  · rw [if_pos hgo, if_pos hgo]
  · rw [if_neg hgo, if_neg hgo]
    have hse : s ≤ e := by omega
    obtain ⟨j, rfl⟩ := Int.eq_ofNat_of_zero_le hs0
    obtain ⟨m, rfl⟩ := Int.eq_ofNat_of_zero_le (le_trans hs0 hse)
    have hjm : j ≤ m := by exact_mod_cast hse
    have hml : m < L.length := by exact_mod_cast hen
    have hcount : wrap64 (wrap64 ((m : Int) - (j : Int)) + 1) = (m : Int) - (j : Int) + 1 := by
      rw [wrap64_of_range ((m : Int) - (j : Int)) (by omega) (by omega),
        wrap64_of_range _ (by omega) (by omega)]
    rw [hcount, writeElems_window L m hml hlen _ j _ (by omega)]
    have h1 : ((m : Int) - (j : Int) + 1).toNat = m + 1 - j := by omega
    simp only [h1, Int.toNat_ofNat]

theorem listAt_of_find (m : GoMap (List String)) (name : String) (L : List String)
    (h : GoMap.find m name = some L) : listAt m name = L := by
  simp [listAt, h]

theorem rpushFold_find (name : String) (vs : List String) :
    ∀ (ls : GoMap (List String)) (L : List String), GoMap.find ls name = some L →
      GoMap.find (vs.foldl (fun ls v => GoMap.set ls name (listAt ls name ++ [v])) ls) name
        = some (L ++ vs) := by
  induction vs with
  | nil => intro ls L h; simpa using h
  | cons v rest ih =>
    intro ls L h
    rw [List.foldl_cons, ih _ (L ++ [v])]
    · simp
    · rw [find_set_self, listAt_of_find ls name L h]

theorem lpushFold_find (name : String) (vs : List String) :
    ∀ (ls : GoMap (List String)) (L : List String), GoMap.find ls name = some L →
      GoMap.find (vs.foldl (fun ls v => GoMap.set ls name ([v] ++ listAt ls name)) ls) name
        = some (vs.reverse ++ L) := by
  induction vs with
  | nil => intro ls L h; simpa using h
  | cons v rest ih =>
    intro ls L h
    rw [List.foldl_cons, ih _ ([v] ++ L)]
    · simp
    · rw [find_set_self, listAt_of_find ls name L h]

/-! ## C3 -/

/-- C3: `RPUSH k vs...` with `vs` non-empty, on a key holding the list `L` (the
empty list when the key is absent), leaves `L ++ vs` at `k` and replies with the
integer `|L| + |vs|`; a following `LRANGE k 0 -1` replies with the array of
`L ++ vs` (the new length being a Go `int`, below 2^63) and `LLEN k` with
`|L| + |vs|`. -/
theorem rpush_appends (ToUpper : String → String) (st : Store)
    (c crange clen name : String) (vs : List String) (now t1 t2 : Int)
    (hc : ToUpper c = "RPUSH") (hrange : ToUpper crange = "LRANGE")
    (hllen : ToUpper clen = "LLEN") (hvs : vs ≠ []) :
    GoMap.find (handleCommand ToUpper st now (c :: name :: vs)).st.lists name
      = some (listAt st.lists name ++ vs) ∧
    (handleCommand ToUpper st now (c :: name :: vs)).out
      = intReply (((listAt st.lists name).length + vs.length : Nat) : Int) ∧
    (handleCommand ToUpper st now (c :: name :: vs)).flow = Flow.next ∧
    ((((listAt st.lists name).length + vs.length : Nat) : Int) < 9223372036854775808 →
      (handleCommand ToUpper (handleCommand ToUpper st now (c :: name :: vs)).st t1
          [crange, name, "0", "-1"]).out
        = arrayHeader (((listAt st.lists name).length + vs.length : Nat) : Int)
            ++ writeBulks (listAt st.lists name ++ vs)) ∧
    (handleCommand ToUpper (handleCommand ToUpper st now (c :: name :: vs)).st t2
        [clen, name]).out
      = intReply (((listAt st.lists name).length + vs.length : Nat) : Int) := by
  obtain ⟨v, rest, rfl⟩ := List.exists_cons_of_ne_nil hvs
  have hfold : GoMap.find
      ((v :: rest).foldl (fun ls x => GoMap.set ls name (listAt ls name ++ [x])) st.lists) name
      = some (listAt st.lists name ++ (v :: rest)) := by
    rw [List.foldl_cons, rpushFold_find name rest _ (listAt st.lists name ++ [v])
      (find_set_self _ _ _)]
    simp
  have hres : handleCommand ToUpper st now (c :: name :: v :: rest) =
      ⟨{ st with lists :=
          (v :: rest).foldl (fun ls x => GoMap.set ls name (listAt ls name ++ [x])) st.lists },
        intReply (((listAt st.lists name).length + (v :: rest).length : Nat) : Int),
        Flow.next⟩ := by
    rw [handleCommand_RPUSH ToUpper st now c _ hc]
    simp only [cmdRPUSH, listAt_of_find _ _ _ hfold, List.length_append]
  rw [hres]
  refine ⟨hfold, rfl, rfl, ?_, ?_⟩
  · intro hlen
    rw [handleCommand_LRANGE ToUpper _ t1 crange _ hrange,
      cmdLRANGE_normalised _ crange name "0" "-1" [] (listAt st.lists name ++ (v :: rest))
        0 (((listAt st.lists name ++ (v :: rest)).length : Int) - 1) hfold (by simp)
        (by rw [List.length_append]; exact hlen)
        (by
          have h0 : (Atoi "0").1 = 0 := by decide
          rw [h0]
          simp)
        (by
          have h1 : (Atoi "-1").1 = -1 := by decide
          rw [h1]
          simp only [List.length_append, List.length_cons]
          have : ((-1 : Int) < 0) := by decide
          rw [if_pos this]
          omega)]
    have hpos : 0 < (listAt st.lists name ++ (v :: rest)).length := by simp
    have hno : ¬ ((0 : Int) > ((listAt st.lists name ++ (v :: rest)).length : Int) - 1 ∨
        (0 : Int) ≥ ((listAt st.lists name ++ (v :: rest)).length : Int)) := by omega
    simp only [if_neg hno]
    have h2 : ((((listAt st.lists name ++ (v :: rest)).length : Int) - 1 - 0 + 1)).toNat
        = (listAt st.lists name ++ (v :: rest)).length := by omega
    have h3 : (((listAt st.lists name ++ (v :: rest)).length : Int) - 1 - 0 + 1)
        = (((listAt st.lists name).length + (v :: rest).length : Nat) : Int) := by
      rw [List.length_append]; omega
    rw [h2, h3]
    simp only [Int.toNat_zero, List.drop_zero, List.take_length]
  · rw [handleCommand_LLEN ToUpper _ t2 clen _ hllen]
    simp only [cmdLLEN, listAt_of_find _ _ _ hfold, List.length_append]


/-- Witness for C3: `RPUSH l b c` on the list `[a]`. -/
theorem rpush_appends_witness :
    asciiUpper "rpush" = "RPUSH" ∧ asciiUpper "LRANGE" = "LRANGE" ∧ asciiUpper "llen" = "LLEN" ∧
    GoMap.find
      (handleCommand asciiUpper ⟨[], [], [("l", ["a"])]⟩ 0 ["rpush", "l", "b", "c"]).st.lists "l"
      = some ["a", "b", "c"] ∧
    (handleCommand asciiUpper ⟨[], [], [("l", ["a"])]⟩ 0 ["rpush", "l", "b", "c"]).out = ":3\r\n" ∧
    (handleCommand asciiUpper
        (handleCommand asciiUpper ⟨[], [], [("l", ["a"])]⟩ 0 ["rpush", "l", "b", "c"]).st 1
        ["LRANGE", "l", "0", "-1"]).out = "*3\r\n$1\r\na\r\n$1\r\nb\r\n$1\r\nc\r\n" ∧
    (handleCommand asciiUpper
        (handleCommand asciiUpper ⟨[], [], [("l", ["a"])]⟩ 0 ["rpush", "l", "b", "c"]).st 2
        ["llen", "l"]).out = ":3\r\n" :=
  have h := rpush_appends asciiUpper ⟨[], [], [("l", ["a"])]⟩ "rpush" "LRANGE" "llen" "l"
    ["b", "c"] 0 1 2 (by decide) (by decide) (by decide) (by decide)
  ⟨by decide, by decide, by decide, h.1, h.2.1.trans (by decide),
    (h.2.2.2.1 (by decide)).trans (by decide), h.2.2.2.2.trans (by decide)⟩

/-! ## C5 -/

/-- C5: `LPUSH k vs...` with `vs` non-empty, on a key holding the list `L` (the
empty list when the key is absent), leaves `reverse(vs) ++ L` at `k` and replies
with the integer `|L| + |vs|`. -/
theorem lpush_prepends_reversed (ToUpper : String → String) (st : Store)
    (c name : String) (vs : List String) (now : Int)
    (hc : ToUpper c = "LPUSH") (hvs : vs ≠ []) :
    GoMap.find (handleCommand ToUpper st now (c :: name :: vs)).st.lists name
      = some (vs.reverse ++ listAt st.lists name) ∧
    (handleCommand ToUpper st now (c :: name :: vs)).out
      = intReply (((listAt st.lists name).length + vs.length : Nat) : Int) ∧
    (handleCommand ToUpper st now (c :: name :: vs)).flow = Flow.next := by
  obtain ⟨v, rest, rfl⟩ := List.exists_cons_of_ne_nil hvs
  have hfold : GoMap.find
      ((v :: rest).foldl (fun ls x => GoMap.set ls name ([x] ++ listAt ls name)) st.lists) name
      = some ((v :: rest).reverse ++ listAt st.lists name) := by
    rw [List.foldl_cons, lpushFold_find name rest _ ([v] ++ listAt st.lists name)
      (find_set_self _ _ _)]
    simp
  rw [handleCommand_LPUSH ToUpper st now c _ hc]
  refine ⟨hfold, ?_, rfl⟩
  simp only [cmdLPUSH, listAt_of_find _ _ _ hfold, List.length_append, List.length_reverse]
  rw [Nat.add_comm]

/-- Witness for C5: `LPUSH l x y` on an absent key, then `LRANGE l 0 -1` replies `[y, x]`. -/
theorem lpush_prepends_reversed_witness :
    asciiUpper "LPUSH" = "LPUSH" ∧
    GoMap.find (handleCommand asciiUpper ⟨[], [], []⟩ 0 ["LPUSH", "l", "x", "y"]).st.lists "l"
      = some ["y", "x"] ∧
    (handleCommand asciiUpper ⟨[], [], []⟩ 0 ["LPUSH", "l", "x", "y"]).out = ":2\r\n" ∧
    (handleCommand asciiUpper
        (handleCommand asciiUpper ⟨[], [], []⟩ 0 ["LPUSH", "l", "x", "y"]).st 1
        ["LRANGE", "l", "0", "-1"]).out = "*2\r\n$1\r\ny\r\n$1\r\nx\r\n" :=
  have h := lpush_prepends_reversed asciiUpper ⟨[], [], []⟩ "LPUSH" "l" ["x", "y"] 0
    (by decide) (by decide)
  ⟨by decide, h.1, h.2.1.trans (by decide), by decide⟩

/-! ## C6 -/

/-- C6: `LRANGE k <a> <b>` on a list `L` of length `n ≥ 1`, where `start` and
`end` are the integers `strconv.Atoi` returns for `<a>` and `<b>`,
`s = max(0, start + n if start < 0 else start)` and
`e = min(n-1, max(0, end + n if end < 0 else end))`: the handler never indexes
outside `L` (no fault, state unchanged); it replies `*0\r\n` when `s > e` or
`s ≥ n`, and otherwise the array of `L[s..e]` inclusive, in list order. In
particular `LRANGE k -j -1` with `1 ≤ j ≤ n` replies with the last `j` elements
and every `start ≥ n` gives the empty array. Slice lengths are Go `int`s. -/
theorem lrange_window (ToUpper : String → String) (st : Store) (c key a b : String)
    (L : List String) (s e now : Int)
    (hc : ToUpper c = "LRANGE") (hfind : GoMap.find st.lists key = some L) (hne : L ≠ [])
    (hlen : (L.length : Int) < 9223372036854775808)
    (hs : s = max 0 (if (Atoi a).1 < 0 then (Atoi a).1 + L.length else (Atoi a).1))
    (he : e = min ((L.length : Int) - 1)
      (max 0 (if (Atoi b).1 < 0 then (Atoi b).1 + L.length else (Atoi b).1))) :
    (handleCommand ToUpper st now [c, key, a, b]).flow = Flow.next ∧
    (handleCommand ToUpper st now [c, key, a, b]).st = st ∧
    (s > e ∨ s ≥ L.length → (handleCommand ToUpper st now [c, key, a, b]).out = "*0\r\n") ∧
    (¬ (s > e ∨ s ≥ L.length) →
      0 ≤ s ∧ s ≤ e ∧ e < L.length ∧
      (handleCommand ToUpper st now [c, key, a, b]).out
        = arrayHeader (e - s + 1)
            ++ writeBulks ((L.drop s.toNat).take (e - s + 1).toNat)) ∧
    (∀ j : Nat, 1 ≤ j → j ≤ L.length → (Atoi a).1 = -(j : Int) → (Atoi b).1 = -1 →
      (handleCommand ToUpper st now [c, key, a, b]).out
        = arrayHeader (j : Int) ++ writeBulks (L.drop (L.length - j))) ∧
    ((Atoi a).1 ≥ L.length → (handleCommand ToUpper st now [c, key, a, b]).out = "*0\r\n") := by
  have hn : 0 < L.length := List.length_pos.mpr hne
  rw [handleCommand_LRANGE ToUpper st now c _ hc,
    cmdLRANGE_normalised st c key a b [] L s e hfind hne hlen hs he]
  refine ⟨rfl, rfl, ?_, ?_, ?_, ?_⟩
  · intro h
    simp only [if_pos h]
  · intro h
    have hs0 : 0 ≤ s := by rw [hs]; exact le_max_left _ _
    have hen : e ≤ (L.length : Int) - 1 := by rw [he]; exact min_le_left _ _
    refine ⟨hs0, by omega, by omega, ?_⟩
    simp only [if_neg h]
  · intro j hj1 hjn ha hb
    have hsj : s = ((L.length - j : Nat) : Int) := by
      rw [hs, ha]
      have : (-(j : Int) < 0) := by omega
      rw [if_pos this]
      omega
    have hej : e = (L.length : Int) - 1 := by
      rw [he, hb]
      have : ((-1 : Int) < 0) := by decide
      rw [if_pos this]
      omega
    have hno : ¬ (s > e ∨ s ≥ L.length) := by omega
    simp only [if_neg hno]
    have h1 : e - s + 1 = (j : Int) := by omega
    rw [h1, hsj, Int.toNat_ofNat, Int.toNat_ofNat,
      List.take_of_length_le (by rw [List.length_drop]; omega)]
  · intro h
    have hsn : s ≥ L.length := by
      rw [hs]
      have : ¬ ((Atoi a).1 < 0) := by omega
      rw [if_neg this]
      omega
    simp only [if_pos (Or.inr hsn : s > e ∨ s ≥ L.length)]

/-- Witness for C6: `LRANGE l -2 -1` on a list of five elements replies with the
last two. -/
theorem lrange_window_witness :
    asciiUpper "LRANGE" = "LRANGE" ∧ (Atoi "-2").1 = -2 ∧ (Atoi "-1").1 = -1 ∧
    (handleCommand asciiUpper ⟨[], [], [("l", ["a", "b", "c", "d", "e"])]⟩ 0
        ["LRANGE", "l", "-2", "-1"]).out = "*2\r\n$1\r\nd\r\n$1\r\ne\r\n" ∧
    (handleCommand asciiUpper ⟨[], [], [("l", ["a", "b", "c", "d", "e"])]⟩ 0
        ["LRANGE", "l", "-2", "-1"]).flow = Flow.next :=
  have h := lrange_window asciiUpper ⟨[], [], [("l", ["a", "b", "c", "d", "e"])]⟩
    "LRANGE" "l" "-2" "-1" ["a", "b", "c", "d", "e"] 3 4 0
    (by decide) (by decide) (by decide) (by decide) (by decide) (by decide)
  ⟨by decide, by decide, by decide, (h.2.2.2.1 (by decide)).2.2.2.trans (by decide), h.1⟩


/-! ## C7 -/

/-- C7 (as stated, refuted): `GET k extra` has one argument more than the arity
table allows, and the reply is the bulk string stored at `k`, not an Error frame. -/
theorem get_with_surplus_argument_is_served :
    handleCommand asciiUpper ⟨[("k", "v")], [], []⟩ 0 ["GET", "k", "extra"]
      = ⟨⟨[("k", "v")], [], []⟩, "$1\r\nv\r\n", Flow.next⟩ ∧
    (handleCommand asciiUpper ⟨[("k", "v")], [], []⟩ 0 ["GET", "k", "extra"]).out.data.head?
      ≠ some '-' := by
  decide

/-- C7 (amended): SET with an argument count other than 2 or 4 (or with 4
arguments whose third is neither PX nor EX), GET or ECHO with no argument, and
LRANGE with fewer than 3 arguments are answered by exactly the Error frame
`-ERR wrong number of arguments for '<CMD>'\r\n`, state unchanged. Surplus
arguments are not an error: PING ignores its arguments, GET, ECHO and LLEN
those after the first, LPOP and RPOP those after the second, LRANGE those after
the third. -/
theorem arity_errors_and_surplus (ToUpper : String → String) (st : Store) (now : Int) :
    (∀ c args, ToUpper c = "SET" → args.length ≠ 2 → args.length ≠ 4 →
      handleCommand ToUpper st now (c :: args)
        = ⟨st, "-ERR wrong number of arguments for 'SET'\r\n", Flow.next⟩) ∧
    (∀ c k v opt ttl, ToUpper c = "SET" → ToUpper opt ≠ "PX" → ToUpper opt ≠ "EX" →
      handleCommand ToUpper st now [c, k, v, opt, ttl]
        = ⟨st, "-ERR wrong number of arguments for 'SET'\r\n", Flow.next⟩) ∧
    (∀ c, ToUpper c = "GET" →
      handleCommand ToUpper st now [c]
        = ⟨st, "-ERR wrong number of arguments for 'GET'\r\n", Flow.next⟩) ∧
    (∀ c, ToUpper c = "ECHO" →
      handleCommand ToUpper st now [c]
        = ⟨st, "-ERR wrong number of arguments for 'ECHO'\r\n", Flow.next⟩) ∧
    (∀ c args, ToUpper c = "LRANGE" → args.length < 3 →
      handleCommand ToUpper st now (c :: args)
        = ⟨st, "-ERR wrong number of arguments for 'LRANGE'\r\n", Flow.next⟩) ∧
    (∀ c args, ToUpper c = "PING" →
      handleCommand ToUpper st now (c :: args) = ⟨st, "+PONG\r\n", Flow.next⟩) ∧
    (∀ c k extra, ToUpper c = "GET" ∨ ToUpper c = "ECHO" ∨ ToUpper c = "LLEN" →
      handleCommand ToUpper st now (c :: k :: extra) = handleCommand ToUpper st now [c, k]) ∧
    (∀ c k n extra, ToUpper c = "LPOP" ∨ ToUpper c = "RPOP" →
      handleCommand ToUpper st now (c :: k :: n :: extra)
        = handleCommand ToUpper st now [c, k, n]) ∧
    (∀ c k a b extra, ToUpper c = "LRANGE" →
      handleCommand ToUpper st now (c :: k :: a :: b :: extra)
        = handleCommand ToUpper st now [c, k, a, b]) := by
  refine ⟨?_, ?_, ?_, ?_, ?_, ?_, ?_, ?_, ?_⟩
  · intro c args hc h2 h4
    rw [handleCommand_SET ToUpper st now c args hc]
    match args, h2, h4 with
    | [], _, _ => rfl
    | [_], _, _ => rfl
    | [_, _], h2, _ => exact absurd rfl h2
    | [_, _, _], _, _ => rfl
    | [_, _, _, _], _, h4 => exact absurd rfl h4
    | _ :: _ :: _ :: _ :: _ :: _, _, _ => rfl
  · intro c k v opt ttl hc hpx hex
    rw [handleCommand_SET ToUpper st now c _ hc]
    simp only [cmdSET, if_neg hpx, if_neg hex]
  · intro c hc
    rw [handleCommand_GET ToUpper st now c _ hc]
    rfl
  · intro c hc
    rw [handleCommand_ECHO ToUpper st now c _ hc]
    rfl
  · intro c args hc hlt
    rw [handleCommand_LRANGE ToUpper st now c _ hc]
    match args, hlt with
    | [], _ => rfl
    | [_], _ => rfl
    | [_, _], _ => rfl
    | _ :: _ :: _ :: _, hlt => simp at hlt; omega
  · intro c args hc
    simp [handleCommand, hc]
  · intro c k extra hc
    rcases hc with hc | hc | hc
    · rw [handleCommand_GET ToUpper st now c _ hc, handleCommand_GET ToUpper st now c _ hc]
      rfl
    · rw [handleCommand_ECHO ToUpper st now c _ hc, handleCommand_ECHO ToUpper st now c _ hc]
      rfl
    · rw [handleCommand_LLEN ToUpper st now c _ hc, handleCommand_LLEN ToUpper st now c _ hc]
      rfl
  · intro c k n extra hc
    rcases hc with hc | hc
    · rw [handleCommand_LPOP ToUpper st now c _ hc, handleCommand_LPOP ToUpper st now c _ hc]
      rfl
    · rw [handleCommand_RPOP ToUpper st now c _ hc, handleCommand_RPOP ToUpper st now c _ hc]
      rfl
  · intro c k a b extra hc
    rw [handleCommand_LRANGE ToUpper st now c _ hc, handleCommand_LRANGE ToUpper st now c _ hc]
    rfl

/-- Witness for C7 (amended): `SET k`, `get`, `LRANGE l 0` are answered by the
arity error; `GET k extra` is handled as `GET k`. -/
theorem arity_errors_and_surplus_witness :
    asciiUpper "SET" = "SET" ∧ asciiUpper "get" = "GET" ∧ asciiUpper "LRANGE" = "LRANGE" ∧
    handleCommand asciiUpper ⟨[("k", "v")], [], []⟩ 0 ["SET", "k"]
      = ⟨⟨[("k", "v")], [], []⟩, "-ERR wrong number of arguments for 'SET'\r\n", Flow.next⟩ ∧
    handleCommand asciiUpper ⟨[("k", "v")], [], []⟩ 0 ["get"]
      = ⟨⟨[("k", "v")], [], []⟩, "-ERR wrong number of arguments for 'GET'\r\n", Flow.next⟩ ∧
    handleCommand asciiUpper ⟨[("k", "v")], [], []⟩ 0 ["LRANGE", "l", "0"]
      = ⟨⟨[("k", "v")], [], []⟩, "-ERR wrong number of arguments for 'LRANGE'\r\n",
          Flow.next⟩ ∧
    handleCommand asciiUpper ⟨[("k", "v")], [], []⟩ 0 ["get", "k", "extra"]
      = handleCommand asciiUpper ⟨[("k", "v")], [], []⟩ 0 ["get", "k"] :=
  have h := arity_errors_and_surplus asciiUpper ⟨[("k", "v")], [], []⟩ 0
  ⟨by decide, by decide, by decide,
    h.1 "SET" ["k"] (by decide) (by decide) (by decide),
    h.2.2.1 "get" (by decide),
    h.2.2.2.2.1 "LRANGE" ["l", "0"] (by decide) (by decide),
    h.2.2.2.2.2.2.1 "get" "k" ["extra"] (Or.inl (by decide))⟩

/-! ## C8 -/

/-- C8 (the code at the failing input): `SET k v PX abc` is answered by
`-ERR invalid expire time\r\n` with the state unchanged, but the handler
returns, so the connection is closed and a following `PING` on the same
connection gets no reply; the arity error of `SET k`, by contrast, lets the
session go on. -/
theorem set_invalid_ttl_closes_session :
    (Atoi "abc").2 = false ∧
    handleCommand asciiUpper ⟨[("k", "old")], [], []⟩ 0 ["SET", "k", "v", "PX", "abc"]
      = ⟨⟨[("k", "old")], [], []⟩, "-ERR invalid expire time\r\n", Flow.close⟩ ∧
    handleCommand asciiUpper ⟨[("k", "old")], [], []⟩ 0 ["SET", "k", "v", "EX", "abc"]
      = ⟨⟨[("k", "old")], [], []⟩, "-ERR invalid expire time\r\n", Flow.close⟩ ∧
    serve asciiUpper ⟨[("k", "old")], [], []⟩
        [(0, ["SET", "k", "v", "PX", "abc"]), (1, ["PING"])]
      = (⟨[("k", "old")], [], []⟩, "-ERR invalid expire time\r\n") ∧
    serve asciiUpper ⟨[("k", "old")], [], []⟩ [(0, ["SET", "k"]), (1, ["PING"])]
      = (⟨[("k", "old")], [], []⟩,
          "-ERR wrong number of arguments for 'SET'\r\n+PONG\r\n") := by
  decide

/-! ## C9 -/

/-- C9: a SET frame whose argument count is neither 2 nor 4 is answered by an
Error frame and leaves the whole state (strings, expirations, lists) as it was,
so the session goes on and a following `GET k` is handled exactly as it would
have been before the SET. -/
theorem set_wrong_arity_no_write (ToUpper : String → String) (st : Store) (now : Int)
    (c : String) (args : List String)
    (hc : ToUpper c = "SET") (h2 : args.length ≠ 2) (h4 : args.length ≠ 4) :
    handleCommand ToUpper st now (c :: args)
      = ⟨st, "-ERR wrong number of arguments for 'SET'\r\n", Flow.next⟩ ∧
    ∀ (cget k : String) (t : Int), ToUpper cget = "GET" →
      handleCommand ToUpper (handleCommand ToUpper st now (c :: args)).st t [cget, k]
        = handleCommand ToUpper st t [cget, k] := by
  have hres : handleCommand ToUpper st now (c :: args)
      = ⟨st, "-ERR wrong number of arguments for 'SET'\r\n", Flow.next⟩ := by
    rw [handleCommand_SET ToUpper st now c args hc]
    match args, h2, h4 with
    | [], _, _ => rfl
    | [_], _, _ => rfl
    | [_, _], h2, _ => exact absurd rfl h2
    | [_, _, _], _, _ => rfl
    | [_, _, _, _], _, h4 => exact absurd rfl h4
    | _ :: _ :: _ :: _ :: _ :: _, _, _ => rfl
  refine ⟨hres, ?_⟩
  intro cget k t _
  rw [hres]

/-- Witness for C9: `SET k` alone on a store where `k` holds `old`. -/
theorem set_wrong_arity_no_write_witness :
    asciiUpper "SET" = "SET" ∧ asciiUpper "GET" = "GET" ∧
    handleCommand asciiUpper ⟨[("k", "old")], [("k", 5)], []⟩ 0 ["SET", "k"]
      = ⟨⟨[("k", "old")], [("k", 5)], []⟩, "-ERR wrong number of arguments for 'SET'\r\n",
          Flow.next⟩ ∧
    (handleCommand asciiUpper
        (handleCommand asciiUpper ⟨[("k", "old")], [("k", 5)], []⟩ 0 ["SET", "k"]).st 1
        ["GET", "k"]).out = "$3\r\nold\r\n" :=
  have h := set_wrong_arity_no_write asciiUpper ⟨[("k", "old")], [("k", 5)], []⟩ 0 "SET" ["k"]
    (by decide) (by decide) (by decide)
  ⟨by decide, by decide, h.1,
    (congrArg Result.out (h.2 "GET" "k" 1 (by decide))).trans (by decide)⟩

/-! ## C10 -/

/-- C10: a frame whose first argument, upper-cased, is none of the ten command
names is answered by `-ERR unknown command\r\n`, leaves the whole state
unchanged, and the session goes on to handle the following frames. -/
theorem unknown_command_error (ToUpper : String → String) (st : Store) (now : Int)
    (c : String) (args : List String) (rest : List (Int × List String))
    (hc : ToUpper c ∉
      ["PING", "ECHO", "SET", "GET", "RPUSH", "LPUSH", "LRANGE", "LLEN", "LPOP", "RPOP"]) :
    handleCommand ToUpper st now (c :: args)
      = ⟨st, "-ERR unknown command\r\n", Flow.next⟩ ∧
    serve ToUpper st ((now, c :: args) :: rest)
      = ((serve ToUpper st rest).1, "-ERR unknown command\r\n" ++ (serve ToUpper st rest).2) := by
  simp only [List.mem_cons, List.mem_singleton, List.not_mem_nil, or_false, not_or] at hc
  obtain ⟨h1, h2, h3, h4, h5, h6, h7, h8, h9, h10⟩ := hc
  have hres : handleCommand ToUpper st now (c :: args)
      = ⟨st, "-ERR unknown command\r\n", Flow.next⟩ := by
    simp only [handleCommand, if_neg h1, if_neg h2, if_neg h3, if_neg h4, if_neg h5, if_neg h6,
      if_neg h7, if_neg h8, if_neg h9, if_neg h10]
  refine ⟨hres, ?_⟩
  simp only [serve, hres]

/-- Witness for C10: `FLUSHALL` followed by `PING` on the same connection. -/
theorem unknown_command_error_witness :
    asciiUpper "flushall" ∉
      ["PING", "ECHO", "SET", "GET", "RPUSH", "LPUSH", "LRANGE", "LLEN", "LPOP", "RPOP"] ∧
    serve asciiUpper ⟨[("k", "v")], [], []⟩ [(0, ["flushall", "x"]), (1, ["PING"])]
      = (⟨[("k", "v")], [], []⟩, "-ERR unknown command\r\n+PONG\r\n") :=
  ⟨by decide,
    (unknown_command_error asciiUpper ⟨[("k", "v")], [], []⟩ 0 "flushall" ["x"]
      [(1, ["PING"])] (by decide)).2.trans (by decide)⟩

/-! ## Lemmas on LPOP and RPOP -/

theorem popCount_none_given (c name : String) : popCount [c, name] = some 1 := rfl

theorem popCount_given (c name arg : String) (rest : List String) (cnt : Int)
    (harg : Atoi arg = (cnt, true)) (hcnt : 1 ≤ cnt) :
    popCount (c :: name :: arg :: rest) = some cnt := by
  have : cnt > 0 := by omega
  simp [popCount, harg, this]

theorem popReply_scalar_or_array (values : List String) (hv : values ≠ []) :
    popReply values (values.length : Int)
      = some (if values.length = 1 then bulk (values.head hv)
              else arrayHeader (values.length : Nat) ++ writeBulks values) := by
  unfold popReply
  by_cases h1 : values.length = 1
  · have : ((values.length : Nat) : Int) = 1 := by omega
    rw [if_pos this, if_pos h1]
    cases values with
    | nil => exact absurd rfl hv
    | cons x xs => simp [index]
  · have : ¬ (((values.length : Nat) : Int) = 1) := by omega
    rw [if_neg this, if_neg h1]

/-- LPOP on a non-empty list with effective count `cnt ≥ 1`. -/
theorem cmdLPOP_pops (st : Store) (c name : String) (rest : List String)
    (L : List String) (cnt : Int)
    (hpc : popCount (c :: name :: rest) = some cnt) (hcnt : 1 ≤ cnt)
    (hfind : GoMap.find st.lists name = some L) (hne : L ≠ []) :
    cmdLPOP st (c :: name :: rest) =
      ⟨{ st with lists := GoMap.set st.lists name (L.drop (min cnt.toNat L.length)) },
        if min cnt.toNat L.length = 1 then bulk (L.head hne)
        else arrayHeader (min cnt.toNat L.length : Nat)
               ++ writeBulks (L.take (min cnt.toNat L.length)),
        Flow.next⟩ := by
  have hn : 0 < L.length := List.length_pos.mpr hne
  have hn0 : L.length ≠ 0 := by omega
  have hclamp : (if cnt > (L.length : Int) then (L.length : Int) else cnt)
      = ((min cnt.toNat L.length : Nat) : Int) := by
    split <;> omega
  have hm1 : 1 ≤ min cnt.toNat L.length := by omega
  have hml : min cnt.toNat L.length ≤ L.length := Nat.min_le_right _ _
  unfold cmdLPOP
  simp only [hpc, hfind, hn0, if_false]
  rw [hclamp]
  generalize min cnt.toNat L.length = m at hm1 hml
  have hto : sliceTo L (m : Int) = some (L.take m) := by
    unfold sliceTo
    rw [if_pos ⟨by omega, by exact_mod_cast hml⟩, Int.toNat_ofNat]
  have hfrom : sliceFrom L (m : Int) = some (L.drop m) := by
    unfold sliceFrom
    rw [if_pos ⟨by omega, by exact_mod_cast hml⟩, Int.toNat_ofNat]
  have htl : (L.take m).length = m := by rw [List.length_take, Nat.min_eq_left hml]
  have htne : L.take m ≠ [] := by
    intro h
    rw [h] at htl
    simp at htl
    omega
  have hreply := popReply_scalar_or_array (L.take m) htne
  rw [htl] at hreply
  have hhead : (L.take m).head htne = L.head hne := by
    cases L with
    | nil => exact absurd rfl hne
    | cons x xs =>
      cases m with
      | zero => omega
      | succ k => rfl
  rw [hhead] at hreply
  simp only [hto, hfrom, hreply]

/-- RPOP on a non-empty list (of Go `int` length) with effective count `cnt ≥ 1`. -/
theorem cmdRPOP_pops (st : Store) (c name : String) (rest : List String)
    (L : List String) (cnt : Int)
    (hpc : popCount (c :: name :: rest) = some cnt) (hcnt : 1 ≤ cnt)
    (hfind : GoMap.find st.lists name = some L) (hne : L ≠ [])
    (hlen : (L.length : Int) < 9223372036854775808) :
    cmdRPOP st (c :: name :: rest) =
      ⟨{ st with lists :=
          GoMap.set st.lists name (L.take (L.length - min cnt.toNat L.length)) },
        if min cnt.toNat L.length = 1 then bulk (L.getLast hne)
        else arrayHeader (min cnt.toNat L.length : Nat)
               ++ writeBulks (L.drop (L.length - min cnt.toNat L.length)),
        Flow.next⟩ := by
  have hn : 0 < L.length := List.length_pos.mpr hne
  have hn0 : L.length ≠ 0 := by omega
  have hclamp : (if cnt > (L.length : Int) then (L.length : Int) else cnt)
      = ((min cnt.toNat L.length : Nat) : Int) := by
    split <;> omega
  have hm1 : 1 ≤ min cnt.toNat L.length := by omega
  have hml : min cnt.toNat L.length ≤ L.length := Nat.min_le_right _ _
  unfold cmdRPOP
  simp only [hpc, hfind, hn0, if_false]
  rw [hclamp]
  generalize min cnt.toNat L.length = m at hm1 hml
  have hw : wrap64 ((L.length : Int) - (m : Int)) = ((L.length - m : Nat) : Int) := by
    rw [wrap64_of_range _ (by omega) (by omega)]
    omega
  rw [hw]
  have hle : L.length - m ≤ L.length := Nat.sub_le _ _
  have hto : sliceTo L ((L.length - m : Nat) : Int) = some (L.take (L.length - m)) := by
    unfold sliceTo
    rw [if_pos ⟨by omega, by exact_mod_cast hle⟩, Int.toNat_ofNat]
  have hfrom : sliceFrom L ((L.length - m : Nat) : Int) = some (L.drop (L.length - m)) := by
    unfold sliceFrom
    rw [if_pos ⟨by omega, by exact_mod_cast hle⟩, Int.toNat_ofNat]
  have hdl : (L.drop (L.length - m)).length = m := by rw [List.length_drop]; omega
  have hdne : L.drop (L.length - m) ≠ [] := by
    intro h
    rw [h] at hdl
    simp at hdl
    omega
  have hreply := popReply_scalar_or_array (L.drop (L.length - m)) hdne
  rw [hdl] at hreply
  have hhead : m = 1 → (L.drop (L.length - m)).head hdne = L.getLast hne := by
    intro h1
    subst h1
    rw [List.head_drop, List.getLast_eq_getElem]
  by_cases h1 : m = 1
  · rw [if_pos h1] at hreply
    rw [hhead h1] at hreply
    simp only [hto, hfrom, hreply, if_pos h1]
  · rw [if_neg h1] at hreply
    simp only [hto, hfrom, hreply, if_neg h1]

/-! ## Lemmas on the cleanup loop, exact effect -/

theorem find_delete_of_none {β : Type} (m : GoMap β) (k k' : String)
    (h : GoMap.find m k = none) : GoMap.find (GoMap.delete m k') k = none := by
  by_cases hk : k' = k
  · rw [hk]; exact find_delete_self m k
  · rw [find_delete_ne m k k' hk]; exact h

theorem mem_of_find {β : Type} (m : GoMap β) (k : String) (v : β)
    (h : GoMap.find m k = some v) : (k, v) ∈ m := by
  induction m with
  | nil => simp [GoMap.find] at h
  | cons p rest ih =>
    obtain ⟨k', v'⟩ := p
    by_cases hk : k' = k
    · subst hk
      simp only [GoMap.find, if_true, Option.some.injEq] at h
      subst h
      exact List.mem_cons_self _ _
    · simp only [GoMap.find, if_neg hk] at h
      exact List.mem_cons_of_mem _ (ih h)

theorem find_of_mem_nodup {β : Type} (m : GoMap β) (k : String) (v : β)
    (hnd : (m.map Prod.fst).Nodup) (h : (k, v) ∈ m) : GoMap.find m k = some v := by
  induction m with
  | nil => simp at h
  | cons p rest ih =>
    obtain ⟨k', v'⟩ := p
    rw [List.map_cons, List.nodup_cons] at hnd
    rcases List.mem_cons.mp h with heq | hmem
    · have h1 : k = k' := (Prod.mk.inj heq).1
      have h2 : v = v' := (Prod.mk.inj heq).2
      subst h1; subst h2
      simp [GoMap.find]
    · have hne : k' ≠ k := by
        intro hk
        apply hnd.1
        rw [hk]
        exact List.mem_map.mpr ⟨(k, v), hmem, rfl⟩
      simp only [GoMap.find, if_neg hne]
      exact ih hnd.2 hmem

/-- The builtin `delete` keeps the keys of a map distinct. -/
theorem delete_nodup {β : Type} (m : GoMap β) (k : String)
    (hnd : (m.map Prod.fst).Nodup) : ((GoMap.delete m k).map Prod.fst).Nodup := by
  unfold GoMap.delete
  exact (List.filter_sublist m).map Prod.fst |>.nodup hnd

/-- The assignment `m[k] = v` keeps the keys of a map distinct. -/
theorem set_nodup {β : Type} (m : GoMap β) (k : String) (v : β)
    (hnd : (m.map Prod.fst).Nodup) : ((GoMap.set m k v).map Prod.fst).Nodup := by
  unfold GoMap.set
  rw [List.map_cons, List.nodup_cons]
  refine ⟨?_, delete_nodup m k hnd⟩
  intro hmem
  obtain ⟨p, hp, hpk⟩ := List.mem_map.mp hmem
  have := (find_eq_none_iff (GoMap.delete m k) k).mp (find_delete_self m k) p hp
  exact this hpk

theorem sweepFold_lists (now : Int) (entries : List (String × Int)) (s : Store) :
    (entries.foldl (sweepStep now) s).lists = s.lists := by
  induction entries generalizing s with
  | nil => rfl
  | cons p rest ih =>
    rw [List.foldl_cons, ih]
    unfold sweepStep
    split <;> rfl

theorem sweepFold_stays_gone (now : Int) (k : String) (entries : List (String × Int))
    (s : Store) (h1 : GoMap.find s.store k = none) (h2 : GoMap.find s.expiry k = none) :
    GoMap.find (entries.foldl (sweepStep now) s).store k = none ∧
    GoMap.find (entries.foldl (sweepStep now) s).expiry k = none := by
  induction entries generalizing s with
  | nil => exact ⟨h1, h2⟩
  | cons p rest ih =>
    rw [List.foldl_cons]
    apply ih
    · unfold sweepStep
      split
      · exact find_delete_of_none _ _ _ h1
      · exact h1
    · unfold sweepStep
      split
      · exact find_delete_of_none _ _ _ h2
      · exact h2

theorem sweepFold_removes (now : Int) (k : String) (entries : List (String × Int))
    (s : Store) (h : ∃ p ∈ entries, p.1 = k ∧ now > p.2) :
    GoMap.find (entries.foldl (sweepStep now) s).store k = none ∧
    GoMap.find (entries.foldl (sweepStep now) s).expiry k = none := by
  induction entries generalizing s with
  | nil =>
    obtain ⟨p, hp, _⟩ := h
    simp at hp
  | cons q rest ih =>
    rw [List.foldl_cons]
    by_cases hq : q.1 = k ∧ now > q.2
    · apply sweepFold_stays_gone
      · unfold sweepStep
        rw [if_pos hq.2, ← hq.1]
        exact find_delete_self _ _
      · unfold sweepStep
        rw [if_pos hq.2, ← hq.1]
        exact find_delete_self _ _
    · apply ih
      obtain ⟨p, hp, hpk⟩ := h
      rcases List.mem_cons.mp hp with heq | hmem
      · rw [heq] at hpk
        exact absurd hpk hq
      · exact ⟨p, hmem, hpk⟩

theorem sweepFold_keeps (now : Int) (k : String) (entries : List (String × Int))
    (s : Store) (h : ∀ p ∈ entries, p.1 = k → ¬ now > p.2) :
    GoMap.find (entries.foldl (sweepStep now) s).store k = GoMap.find s.store k ∧
    GoMap.find (entries.foldl (sweepStep now) s).expiry k = GoMap.find s.expiry k := by
  induction entries generalizing s with
  | nil => exact ⟨rfl, rfl⟩
  | cons q rest ih =>
    rw [List.foldl_cons]
    have hrest := ih (sweepStep now s q) (fun p hp => h p (List.mem_cons_of_mem _ hp))
    have hstep : GoMap.find (sweepStep now s q).store k = GoMap.find s.store k ∧
        GoMap.find (sweepStep now s q).expiry k = GoMap.find s.expiry k := by
      unfold sweepStep
      by_cases hq : now > q.2
      · have hne : q.1 ≠ k := fun hk => h q (List.mem_cons_self _ _) hk hq
        rw [if_pos hq]
        exact ⟨find_delete_ne _ _ _ hne, find_delete_ne _ _ _ hne⟩
      · rw [if_neg hq]
        exact ⟨rfl, rfl⟩
    exact ⟨hrest.1.trans hstep.1, hrest.2.trans hstep.2⟩

/-! ## C12 -/

/-- C12 (as stated, refuted): the key `k` has `expiresAt = 5`; a cleanup iteration
at `now = 5` has `expiresAt ≤ now` and leaves the key in place, because the loop
tests `now.After(exp)`. -/
theorem sweep_at_deadline_keeps_key :
    GoMap.find (⟨[("k", "v")], [("k", 5)], []⟩ : Store).expiry "k" = some 5 ∧ (5 : Int) ≤ 5 ∧
    sweep 5 ⟨[("k", "v")], [("k", 5)], []⟩ = ⟨[("k", "v")], [("k", 5)], []⟩ ∧
    GoMap.find (sweep 5 ⟨[("k", "v")], [("k", 5)], []⟩).store "k" = some "v" := by
  decide

/-- C12 (amended): on a state whose `expiry` map has one entry per key, one
cleanup iteration at `now` removes from the string space (value and expiration
together) exactly the keys that have an expiration with `expiresAt < now`, and
leaves every other key, value and expiration, and all lists, unchanged. -/
theorem sweep_removes_overdue (now : Int) (st : Store)
    (hnd : (st.expiry.map Prod.fst).Nodup) :
    (∀ k e, GoMap.find st.expiry k = some e → e < now →
      GoMap.find (sweep now st).store k = none ∧ GoMap.find (sweep now st).expiry k = none) ∧
    (∀ k, (GoMap.find st.expiry k = none ∨ ∃ e, GoMap.find st.expiry k = some e ∧ now ≤ e) →
      GoMap.find (sweep now st).store k = GoMap.find st.store k ∧
      GoMap.find (sweep now st).expiry k = GoMap.find st.expiry k) ∧
    (sweep now st).lists = st.lists := by
  refine ⟨?_, ?_, sweepFold_lists now st.expiry st⟩
  · intro k e hfind hlt
    exact sweepFold_removes now k st.expiry st ⟨(k, e), mem_of_find _ _ _ hfind, rfl, hlt⟩
  · intro k hk
    apply sweepFold_keeps now k st.expiry st
    intro p hp hpk hgt
    have hfp : GoMap.find st.expiry k = some p.2 := by
      apply find_of_mem_nodup _ _ _ hnd
      rw [← hpk]
      exact hp
    rcases hk with hnone | ⟨e, he, hle⟩
    · rw [hnone] at hfp
      exact Option.noConfusion hfp
    · rw [he] at hfp
      have : e = p.2 := Option.some.inj hfp
      omega

/-- Witness for C12 (amended): of two keys with deadlines 3 and 9, a cleanup
iteration at 5 removes the first and keeps the second. -/
theorem sweep_removes_overdue_witness :
    ((⟨[("a", "x"), ("b", "y")], [("a", 3), ("b", 9)], [("l", ["z"])]⟩ : Store).expiry.map
      Prod.fst).Nodup ∧
    sweep 5 ⟨[("a", "x"), ("b", "y")], [("a", 3), ("b", 9)], [("l", ["z"])]⟩
      = ⟨[("b", "y")], [("b", 9)], [("l", ["z"])]⟩ ∧
    GoMap.find (sweep 5 ⟨[("a", "x"), ("b", "y")], [("a", 3), ("b", 9)], [("l", ["z"])]⟩).store
      "a" = none :=
  ⟨by decide, by decide,
    ((sweep_removes_overdue 5 ⟨[("a", "x"), ("b", "y")], [("a", 3), ("b", 9)], [("l", ["z"])]⟩
      (by decide)).1 "a" 3 (by decide) (by decide)).1⟩

/-! ## Lemmas on frame decoding -/

theorem readString_line (l rest : List Char) (h : ∀ c ∈ l, c ≠ '\n') :
    readString (l ++ '\n' :: rest) = some (l ++ ['\n'], rest) := by
  induction l with
  | nil => simp [readString]
  | cons c cs ih =>
    have hc : c ≠ '\n' := h c (List.mem_cons_self _ _)
    have hcs : ∀ d ∈ cs, d ≠ '\n' := fun d hd => h d (List.mem_cons_of_mem _ hd)
    simp [readString, hc, ih hcs]

theorem trimChars_crlf (l : List Char) : trimChars (l ++ ['\r', '\n']) = trimChars l := by
  unfold trimChars
  have h : l ++ ['\r', '\n'] = (l ++ ['\r']) ++ ['\n'] := by simp
  rw [h, List.rdropWhile_concat_pos _ _ _ (by decide), List.rdropWhile_concat_pos _ _ _ (by decide)]

theorem trimChars_eq_self (l : List Char)
    (hhead : ∀ c, l.head? = some c → isSpace c = false)
    (hlast : ∀ c, l.getLast? = some c → isSpace c = false) : trimChars l = l := by
  unfold trimChars
  have h1 : l.rdropWhile isSpace = l := by
    rw [List.rdropWhile_eq_self_iff]
    intro hl
    have := hlast (l.getLast hl) (List.getLast?_eq_getLast _ hl)
    simp [this]
  rw [h1, List.dropWhile_eq_self_iff]
  intro hl
  have hh : l.head? = some (l.get ⟨0, hl⟩) := by
    cases l with
    | nil => simp at hl
    | cons x xs => rfl
  have := hhead _ hh
  rw [this]
  exact Bool.false_ne_true

theorem scanDigits_all_decimal (cs : List Char) :
    ∀ (a m : Nat), scanDigits cs a = UintScan.ok m → ∀ c ∈ cs, isDecimalDigit c = true := by
  induction cs with
  | nil => intro a m _ c hc; simp at hc
  | cons d ds ih =>
    intro a m h c hc
    unfold scanDigits at h
    by_cases h1 : d.toNat < 48 ∨ 57 < d.toNat
    · rw [if_pos h1] at h
      exact UintScan.noConfusion h
    · rw [if_neg h1] at h
      by_cases h2 : a ≥ 1844674407370955162
      · rw [if_pos h2] at h
        exact UintScan.noConfusion h
      · rw [if_neg h2] at h
        by_cases h3 : a * 10 + (d.toNat - 48) > 18446744073709551615
        · rw [if_pos h3] at h
          exact UintScan.noConfusion h
        · rw [if_neg h3] at h
          rcases List.mem_cons.mp hc with rfl | hmem
          · unfold isDecimalDigit
            simp only [decide_eq_true_eq]
            omega
          · exact ih _ _ h c hmem

theorem decimal_not_space (c : Char) (h : isDecimalDigit c = true) : isSpace c = false := by
  unfold isDecimalDigit at h
  simp only [decide_eq_true_eq] at h
  unfold isSpace
  simp only [decide_eq_false_iff_not]
  omega

/-- The `%d` rendering of a natural number is a non-empty run of decimal digits. -/
theorem repr_decimal (n : Nat) (hn : n ≤ 18446744073709551615) :
    ∃ c cs, (Nat.repr n).data = c :: cs ∧ ∀ d ∈ c :: cs, isDecimalDigit d = true := by
  obtain ⟨c, cs, hdata, _, _, hparse⟩ := parseUint_repr n hn
  exact ⟨c, cs, hdata, scanDigits_all_decimal (c :: cs) 0 n hparse⟩

theorem decimal_ne_newline (c : Char) (h : isDecimalDigit c = true) : c ≠ '\n' := by
  rintro rfl
  exact absurd h (by decide)

theorem decimal_ne_cr (c : Char) (h : isDecimalDigit c = true) : c ≠ '\r' := by
  rintro rfl
  exact absurd h (by decide)

theorem scanCount_header (n : Nat) (hn : (n : Int) < 9223372036854775808) :
    scanCount ('*' :: (fmtInt n).data) = n := by
  obtain ⟨c, cs, hdata, hdec⟩ := repr_decimal n (by omega)
  have hfd : (fmtInt (n : Int)).data = c :: cs := hdata
  have hc := hdec c (List.mem_cons_self _ _)
  have hat : Atoi (String.mk (c :: cs)) = ((n : Int), true) := by
    have h := Atoi_fmtInt (n : Int) (by unfold minInt64; omega) (by unfold maxInt64; omega)
    have hmk : String.mk (c :: cs) = fmtInt (n : Int) := by
      rw [← hfd]
    rw [hmk]
    exact h
  have htw : (c :: cs).takeWhile isDecimalDigit = c :: cs := by
    rw [List.takeWhile_eq_self_iff]
    exact hdec
  have hsk : skipSpace (c :: cs) = some (c :: cs) := by
    unfold skipSpace
    rw [if_neg (decimal_ne_newline c hc), decimal_not_space c hc]
    simp
  have hsign : ¬ (c = '+' ∨ c = '-') := by
    rintro (rfl | rfl)
    · exact absurd hc (by decide)
    · exact absurd hc (by decide)
  rw [hfd]
  unfold scanCount
  simp only [if_true, hsk, if_neg hsign, htw, hat]
  simp

theorem toDigitsCore_all_decimal (fuel : Nat) :
    ∀ (n : Nat) (ds : List Char), (∀ d ∈ ds, isDecimalDigit d = true) →
      ∀ d ∈ Nat.toDigitsCore 10 fuel n ds, isDecimalDigit d = true := by
  induction fuel with
  | zero => intro n ds h d hd; exact h d hd
  | succ fuel ih =>
    intro n ds h
    have hdc : isDecimalDigit (Nat.digitChar (n % 10)) = true := by
      unfold isDecimalDigit
      rw [digitChar_toNat (n % 10) (Nat.mod_lt _ (by decide))]
      simp only [decide_eq_true_eq]
      omega
    have hds : ∀ d ∈ Nat.digitChar (n % 10) :: ds, isDecimalDigit d = true := by
      intro d hd
      rcases List.mem_cons.mp hd with rfl | hmem
      · exact hdc
      · exact h d hmem
    unfold Nat.toDigitsCore
    by_cases h0 : n / 10 = 0
    · simp only [h0, if_true]
      exact hds
    · simp only [h0, if_false]
      exact ih _ _ hds

/-- The `%d` rendering of any natural number consists of decimal digits only. -/
theorem fmtInt_nat_decimal (n : Nat) : ∀ d ∈ (fmtInt (n : Int)).data, isDecimalDigit d = true := by
  have h : (fmtInt (n : Int)).data = Nat.toDigitsCore 10 (n + 1) n [] := rfl
  rw [h]
  exact toDigitsCore_all_decimal (n + 1) n [] (fun d hd => by simp at hd)

theorem readParts_request (args : List String) (rest : List Char)
    (hnl : ∀ a ∈ args, ∀ c ∈ a.data, c ≠ '\n') :
    readParts args.length
        (args.flatMap (fun a =>
          ('$' :: (fmtInt a.utf8ByteSize).data ++ ['\r', '\n']) ++ (a.data ++ ['\r', '\n']))
          ++ rest)
      = some (args.map TrimSpace, rest) := by
  induction args with
  | nil => rfl
  | cons a as ih =>
    have ha : ∀ c ∈ a.data, c ≠ '\n' := hnl a (List.mem_cons_self _ _)
    have has : ∀ b ∈ as, ∀ c ∈ b.data, c ≠ '\n' :=
      fun b hb => hnl b (List.mem_cons_of_mem _ hb)
    have hshape : (a :: as).flatMap (fun a =>
          ('$' :: (fmtInt a.utf8ByteSize).data ++ ['\r', '\n']) ++ (a.data ++ ['\r', '\n']))
          ++ rest
        = ('$' :: (fmtInt a.utf8ByteSize).data ++ ['\r']) ++ '\n' ::
            ((a.data ++ ['\r']) ++ '\n' ::
              (as.flatMap (fun a =>
                ('$' :: (fmtInt a.utf8ByteSize).data ++ ['\r', '\n'])
                  ++ (a.data ++ ['\r', '\n'])) ++ rest)) := by
      simp [List.flatMap_cons, List.append_assoc]
    have h1 : ∀ c ∈ '$' :: (fmtInt a.utf8ByteSize).data ++ ['\r'], c ≠ '\n' := by
      intro c hc
      rcases List.mem_append.mp hc with h | h
      · rcases List.mem_cons.mp h with rfl | h'
        · decide
        · exact decimal_ne_newline c (fmtInt_nat_decimal _ c h')
      · rw [List.mem_singleton] at h
        rw [h]
        decide
    have h2 : ∀ c ∈ a.data ++ ['\r'], c ≠ '\n' := by
      intro c hc
      rcases List.mem_append.mp hc with h | h
      · exact ha c h
      · rw [List.mem_singleton] at h
        rw [h]
        decide
    have htrim : TrimSpace (String.mk (a.data ++ ['\r'] ++ ['\n'])) = TrimSpace a := by
      unfold TrimSpace
      have : a.data ++ ['\r'] ++ ['\n'] = a.data ++ ['\r', '\n'] := by simp
      rw [this]
      show String.mk (trimChars (a.data ++ ['\r', '\n'])) = String.mk (trimChars a.data)
      rw [trimChars_crlf]
    rw [hshape, List.length_cons]
    unfold readParts
    rw [readString_line _ _ h1]
    simp only []
    rw [readString_line _ _ h2]
    simp only []
    rw [ih has, htrim]
    rfl

theorem TrimSpace_eq_self (a : String)
    (hhead : ∀ c, a.data.head? = some c → isSpace c = false)
    (hlast : ∀ c, a.data.getLast? = some c → isSpace c = false) : TrimSpace a = a := by
  unfold TrimSpace
  rw [trimChars_eq_self a.data hhead hlast]

/-- Reading the frame that `specRequestFrame` builds. -/
theorem readFrame_request (maxCap : Nat) (args : List String) (rest : List Char)
    (hnl : ∀ a ∈ args, ∀ c ∈ a.data, c ≠ '\n')
    (hcap : args.length ≤ maxCap) (hlen : (args.length : Int) < 9223372036854775808) :
    readFrame maxCap (specRequestFrame args ++ rest)
      = Decoded.parts (args.map TrimSpace) rest := by
  have hhdr : ∀ c ∈ '*' :: (fmtInt (args.length : Int)).data ++ ['\r'], c ≠ '\n' := by
    intro c hc
    rcases List.mem_append.mp hc with h | h
    · rcases List.mem_cons.mp h with rfl | h'
      · decide
      · exact decimal_ne_newline c (fmtInt_nat_decimal _ c h')
    · rw [List.mem_singleton] at h
      rw [h]
      decide
  have hshape : specRequestFrame args ++ rest
      = ('*' :: (fmtInt (args.length : Int)).data ++ ['\r']) ++ '\n' ::
          (args.flatMap (fun a =>
            ('$' :: (fmtInt a.utf8ByteSize).data ++ ['\r', '\n']) ++ (a.data ++ ['\r', '\n']))
            ++ rest) := by
    simp [specRequestFrame, List.append_assoc]
  have htrim : trimChars ('*' :: (fmtInt (args.length : Int)).data ++ ['\r'] ++ ['\n'])
      = '*' :: (fmtInt (args.length : Int)).data := by
    have h : '*' :: (fmtInt (args.length : Int)).data ++ ['\r'] ++ ['\n']
        = ('*' :: (fmtInt (args.length : Int)).data) ++ ['\r', '\n'] := by simp
    rw [h, trimChars_crlf]
    apply trimChars_eq_self
    · intro c hc
      simp only [List.head?_cons, Option.some.injEq] at hc
      rw [← hc]
      decide
    · intro c hc
      have hmem : c ∈ '*' :: (fmtInt (args.length : Int)).data := List.mem_of_getLast?_eq_some hc
      rcases List.mem_cons.mp hmem with rfl | h'
      · decide
      · exact decimal_not_space c (fmtInt_nat_decimal _ c h')
  rw [hshape]
  unfold readFrame
  rw [readString_line _ _ hhdr]
  simp only [htrim, List.head?_cons, if_true, scanCount_header args.length hlen]
  have hok : ¬ ((args.length : Int) < 0 ∨ (args.length : Int) > (maxCap : Int)) := by omega
  rw [if_neg hok, Int.toNat_ofNat, readParts_request args rest hnl]

/-! ## C13 -/

/-- C13 (as stated, refuted): the frame for the two arguments `ECHO` and ` a`
(the second begins with a space, neither contains CR or LF) decodes to `ECHO`
and `a`: `strings.TrimSpace` has removed the leading space. -/
theorem decode_drops_leading_space :
    (∀ a ∈ ["ECHO", " a"], ∀ c ∈ a.data, c ≠ '\r' ∧ c ≠ '\n') ∧
    specRequestFrame ["ECHO", " a"] = "*2\r\n$4\r\nECHO\r\n$2\r\n a\r\n".data ∧
    readFrame 1024 (specRequestFrame ["ECHO", " a"]) = Decoded.parts ["ECHO", "a"] [] ∧
    readFrame 1024 (specRequestFrame ["ECHO", " a"]) ≠ Decoded.parts ["ECHO", " a"] [] := by
  decide

/-- C13 (amended): for every sequence of `n` argument strings containing no LF
(`n` being a Go `int` that `make` accepts as a capacity), decoding the request
frame `*<n>\r\n` followed by `$<len>\r\n<arg>\r\n` for each argument yields, in
order, those `n` strings with leading and trailing white space removed, and
leaves the rest of the stream unread; arguments that neither begin nor end with
white space (empty arguments included) come out unchanged. -/
theorem decode_request_frame (maxCap : Nat) (args : List String) (rest : List Char)
    (hnl : ∀ a ∈ args, ∀ c ∈ a.data, c ≠ '\n')
    (hcap : args.length ≤ maxCap) (hlen : (args.length : Int) < 9223372036854775808) :
    readFrame maxCap (specRequestFrame args ++ rest)
      = Decoded.parts (args.map TrimSpace) rest ∧
    ((∀ a ∈ args, (∀ c, a.data.head? = some c → isSpace c = false) ∧
        (∀ c, a.data.getLast? = some c → isSpace c = false)) →
      readFrame maxCap (specRequestFrame args ++ rest) = Decoded.parts args rest) := by
  refine ⟨readFrame_request maxCap args rest hnl hcap hlen, ?_⟩
  intro hclean
  rw [readFrame_request maxCap args rest hnl hcap hlen]
  have hmap : args.map TrimSpace = args := by
    have : ∀ a ∈ args, TrimSpace a = id a :=
      fun a ha => TrimSpace_eq_self a (hclean a ha).1 (hclean a ha).2
    rw [List.map_congr_left this, List.map_id]
  rw [hmap]

/-- Witness for C13 (amended): the frame of `SET`, `k`, the empty string, and an
argument with an inner space, followed by the start of another frame. -/
theorem decode_request_frame_witness :
    (∀ a ∈ ["SET", "k", "", "a b"], ∀ c ∈ a.data, c ≠ '\n') ∧
    readFrame 1024 (specRequestFrame ["SET", "k", "", "a b"] ++ "*1\r\n".data)
      = Decoded.parts ["SET", "k", "", "a b"] "*1\r\n".data :=
  ⟨by decide,
    (decode_request_frame 1024 ["SET", "k", "", "a b"] "*1\r\n".data (by decide) (by decide)
      (by decide)).2 (by decide)⟩

/-! ## C14 -/

/-- C14 (the code at the failing input): the header line `*-1\r\n` starts with
`*`, `fmt.Sscanf` reads the count `-1`, and `make([]string, 0, -1)` panics,
whatever follows on the stream and whatever capacity the run-time library
accepts; a count above that capacity panics as well. Other malformed headers
do end the session or yield an (empty) argument list. -/
theorem negative_count_panics :
    (∀ (maxCap : Nat) (rest : List Char),
      readFrame maxCap ("*-1\r\n".data ++ rest) = Decoded.fault) ∧
    readFrame 1024 "*1025\r\n".data = Decoded.fault ∧
    readFrame 1024 "PING\r\n".data = Decoded.closed "-ERR Protocol error\r\n" ∧
    readFrame 1024 "*x\r\n".data = Decoded.parts [] [] ∧
    readFrame 1024 "*99999999999999999999\r\n".data = Decoded.parts [] [] := by
  refine ⟨?_, by decide, by decide, by decide, by decide⟩
  intro maxCap rest
  have hline : readString ("*-1\r\n".data ++ rest) = some (['*', '-', '1', '\r'] ++ ['\n'], rest) :=
    readString_line ['*', '-', '1', '\r'] rest (by decide)
  have htrim : trimChars (['*', '-', '1', '\r'] ++ ['\n']) = ['*', '-', '1'] := by decide
  have hcount : scanCount ['*', '-', '1'] = -1 := by decide
  unfold readFrame
  rw [hline]
  simp only [htrim, hcount, List.head?_cons, if_true]
  have : ((-1 : Int) < 0 ∨ (-1 : Int) > (maxCap : Int)) := Or.inl (by decide)
  rw [if_pos this]

/-! ## C15 -/

theorem sweepFold_expiry_subset (now : Int) (entries : List (String × Int)) (s : Store) :
    ∀ p ∈ (entries.foldl (sweepStep now) s).expiry, p ∈ s.expiry := by
  induction entries generalizing s with
  | nil => intro p hp; exact hp
  | cons q rest ih =>
    intro p hp
    rw [List.foldl_cons] at hp
    have h1 := ih (sweepStep now s q) p hp
    unfold sweepStep at h1
    split at h1
    · exact (List.mem_filter.mp h1).1
    · exact h1

/-- A key whose only deadline is `dl` keeps its value through cleanup iterations
that run no later than `dl`. -/
theorem sweeps_keep_until_deadline (ticks : List Int) (k v : String) (dl : Int) :
    ∀ (st : Store), (∀ s ∈ ticks, s ≤ dl) → GoMap.find st.store k = some v →
      (∀ p ∈ st.expiry, p.1 = k → p.2 = dl) →
      GoMap.find (sweeps ticks st).store k = some v ∧
      (∀ p ∈ (sweeps ticks st).expiry, p.1 = k → p.2 = dl) := by
  induction ticks with
  | nil => intro st _ h1 h2; exact ⟨h1, h2⟩
  | cons t rest ih =>
    intro st hticks h1 h2
    have ht : t ≤ dl := hticks t (List.mem_cons_self _ _)
    have hkeep := sweepFold_keeps t k st.expiry st (fun p hp hpk hgt => by
      have := h2 p hp hpk
      omega)
    apply ih (sweep t st) (fun s hs => hticks s (List.mem_cons_of_mem _ hs))
    · exact hkeep.1.trans h1
    · intro p hp hpk
      exact h2 p (sweepFold_expiry_subset t st.expiry st p hp) hpk

/-- C15 (as stated, refuted): `SET k v PX 9223372036855` is accepted by the
parser, but the product `time.Millisecond * 9223372036855` leaves `int64` and
wraps: the recorded deadline is not `now + t` milliseconds but lies in the past,
and a `GET k` one nanosecond later replies with the null bulk. -/
theorem set_px_large_ttl_wraps :
    Atoi "9223372036855" = (9223372036855, true) ∧
    GoMap.find
      (handleCommand asciiUpper ⟨[], [], []⟩ 0 ["SET", "k", "v", "PX", "9223372036855"]).st.expiry
      "k" = some (-9223372036854551616) ∧
    (-9223372036854551616 : Int) ≠ 0 + 1000000 * 9223372036855 ∧
    (handleCommand asciiUpper
        (handleCommand asciiUpper ⟨[], [], []⟩ 0 ["SET", "k", "v", "PX", "9223372036855"]).st
        1 ["GET", "k"]).out = "$-1\r\n" := by
  decide

/-- C15 (amended): for every TTL argument that `strconv.Atoi` reads as the
integer `t` and whose duration in nanoseconds (`t * 10^6` for PX, `t * 10^9` for
EX) fits in `int64`, `SET k v PX|EX <arg>` handled at `now` stores `v` and
records exactly `expiresAt = now + t` milliseconds (PX) or seconds (EX); a
`GET k` handled no later than that deadline, with cleanup iterations no later
than it in between, replies with the bulk string of `v`. -/
theorem set_ttl_deadline (ToUpper : String → String) (st : Store)
    (cset cget k v opt arg : String) (t now unit : Int)
    (hset : ToUpper cset = "SET") (hget : ToUpper cget = "GET")
    (hunit : (ToUpper opt = "PX" ∧ unit = 1000000) ∨ (ToUpper opt = "EX" ∧ unit = 1000000000))
    (harg : Atoi arg = (t, true))
    (hlo : -9223372036854775808 ≤ unit * t) (hhi : unit * t < 9223372036854775808) :
    (handleCommand ToUpper st now [cset, k, v, opt, arg]).out = "+OK\r\n" ∧
    GoMap.find (handleCommand ToUpper st now [cset, k, v, opt, arg]).st.store k = some v ∧
    GoMap.find (handleCommand ToUpper st now [cset, k, v, opt, arg]).st.expiry k
      = some (now + unit * t) ∧
    (∀ (ticks : List Int) (t' : Int), (∀ s ∈ ticks, s ≤ now + unit * t) → t' ≤ now + unit * t →
      (handleCommand ToUpper
          (sweeps ticks (handleCommand ToUpper st now [cset, k, v, opt, arg]).st) t'
          [cget, k]).out = bulk v) := by
  have hres : handleCommand ToUpper st now [cset, k, v, opt, arg] =
      ⟨{ st with store := GoMap.set st.store k v,
                 expiry := GoMap.set st.expiry k (now + unit * t) },
        "+OK\r\n", Flow.next⟩ := by
    rw [handleCommand_SET ToUpper st now cset _ hset]
    rcases hunit with ⟨hpx, hu⟩ | ⟨hex, hu⟩
    · subst hu
      simp [cmdSET, hpx, harg, wrap64_of_range _ hlo hhi]
    · subst hu
      have hnpx : ToUpper opt ≠ "PX" := by rw [hex]; decide
      simp [cmdSET, hnpx, hex, harg, wrap64_of_range _ hlo hhi]
  rw [hres]
  refine ⟨rfl, find_set_self _ _ _, find_set_self _ _ _, ?_⟩
  intro ticks t' hticks ht'
  have hinv := sweeps_keep_until_deadline ticks k v (now + unit * t)
    { st with store := GoMap.set st.store k v,
              expiry := GoMap.set st.expiry k (now + unit * t) }
    hticks (find_set_self _ _ _)
    (by
      intro p hp hpk
      rcases List.mem_cons.mp hp with rfl | hmem
      · rfl
      · exact absurd hpk
          ((find_eq_none_iff (GoMap.delete st.expiry k) k).mp (find_delete_self _ _) p hmem))
  rw [handleCommand_GET ToUpper _ t' cget _ hget]
  simp only [cmdGET, hinv.1]
  cases hexp : GoMap.find (sweeps ticks
      { st with store := GoMap.set st.store k v,
                expiry := GoMap.set st.expiry k (now + unit * t) }).expiry k with
  | none => rfl
  | some e =>
    have he : e = now + unit * t := hinv.2 (k, e) (mem_of_find _ _ _ hexp) rfl
    have : ¬ (t' > e) := by omega
    simp only [if_neg this]

/-- Witness for C15 (amended): `SET k v EX 2` at instant 0, a cleanup iteration
after one second, `GET k` just at the deadline. -/
theorem set_ttl_deadline_witness :
    asciiUpper "SET" = "SET" ∧ asciiUpper "GET" = "GET" ∧ asciiUpper "ex" = "EX" ∧
    Atoi "2" = (2, true) ∧
    GoMap.find
      (handleCommand asciiUpper ⟨[], [], []⟩ 0 ["SET", "k", "v", "ex", "2"]).st.expiry "k"
      = some 2000000000 ∧
    (handleCommand asciiUpper
        (sweeps [1000000000]
          (handleCommand asciiUpper ⟨[], [], []⟩ 0 ["SET", "k", "v", "ex", "2"]).st)
        2000000000 ["GET", "k"]).out = "$1\r\nv\r\n" :=
  have h := set_ttl_deadline asciiUpper ⟨[], [], []⟩ "SET" "GET" "k" "v" "ex" "2" 2 0 1000000000
    (by decide) (by decide) (Or.inr ⟨by decide, rfl⟩) (by decide) (by decide) (by decide)
  ⟨by decide, by decide, by decide, by decide, h.2.2.1,
    (h.2.2.2 [1000000000] 2000000000 (by decide) (by decide)).trans (by decide)⟩

/-! ## C16 -/

theorem writeBulks_eq_join (elems : List String) :
    writeBulks elems = String.join (elems.map specBulk) := by
  unfold writeBulks String.join
  rw [List.foldl_map]
  rfl

theorem array_reply_eq_specArray (elems : List String) (n : Int) (h : n = elems.length) :
    arrayHeader n ++ writeBulks elems = specArray elems := by
  subst h
  rw [writeBulks_eq_join]
  rfl

theorem popCount_pos (parts : List String) (cnt : Int) (h : popCount parts = some cnt) :
    1 ≤ cnt := by
  unfold popCount at h
  split at h
  · split at h
    · rename_i hc
      have := Option.some.inj h
      omega
    · exact Option.noConfusion h
  · have := Option.some.inj h
    omega

theorem cmdLPOP_shape (st : Store) (c k : String) (rest : List String) :
    (cmdLPOP st (c :: k :: rest)).out = "$-1\r\n" ∨
    (∃ x, (cmdLPOP st (c :: k :: rest)).out = specBulk x) ∨
    ∃ elems, (cmdLPOP st (c :: k :: rest)).out = specArray elems := by
  cases hpc : popCount (c :: k :: rest) with
  | none =>
    refine Or.inr (Or.inr ⟨[], ?_⟩)
    simp only [cmdLPOP, hpc]
    rfl
  | some cnt =>
    cases hfind : GoMap.find st.lists k with
    | none =>
      left
      simp only [cmdLPOP, hpc, hfind]
    | some L =>
      by_cases hne : L = []
      · subst hne
        left
        simp only [cmdLPOP, hpc, hfind, List.length_nil, if_true]
      · rw [cmdLPOP_pops st c k rest L cnt hpc (popCount_pos _ _ hpc) hfind hne]
        by_cases h1 : min cnt.toNat L.length = 1
        · simp only [if_pos h1]
          exact Or.inr (Or.inl ⟨_, rfl⟩)
        · simp only [if_neg h1]
          refine Or.inr (Or.inr ⟨_, array_reply_eq_specArray _ _ ?_⟩)
          rw [List.length_take]
          have : min cnt.toNat L.length ≤ L.length := Nat.min_le_right _ _
          omega

theorem cmdRPOP_shape (st : Store) (c k : String) (rest : List String)
    (hlists : ∀ key L, GoMap.find st.lists key = some L →
      (L.length : Int) < 9223372036854775808) :
    (cmdRPOP st (c :: k :: rest)).out = "$-1\r\n" ∨
    (∃ x, (cmdRPOP st (c :: k :: rest)).out = specBulk x) ∨
    ∃ elems, (cmdRPOP st (c :: k :: rest)).out = specArray elems := by
  cases hpc : popCount (c :: k :: rest) with
  | none =>
    refine Or.inr (Or.inr ⟨[], ?_⟩)
    simp only [cmdRPOP, hpc]
    rfl
  | some cnt =>
    cases hfind : GoMap.find st.lists k with
    | none =>
      left
      simp only [cmdRPOP, hpc, hfind]
    | some L =>
      by_cases hne : L = []
      · subst hne
        left
        simp only [cmdRPOP, hpc, hfind, List.length_nil, if_true]
      · rw [cmdRPOP_pops st c k rest L cnt hpc (popCount_pos _ _ hpc) hfind hne
          (hlists k L hfind)]
        by_cases h1 : min cnt.toNat L.length = 1
        · simp only [if_pos h1]
          exact Or.inr (Or.inl ⟨_, rfl⟩)
        · simp only [if_neg h1]
          refine Or.inr (Or.inr ⟨_, array_reply_eq_specArray _ _ ?_⟩)
          rw [List.length_drop]
          have : min cnt.toNat L.length ≤ L.length := Nat.min_le_right _ _
          omega

/-- C16: every bulk string the dispatcher writes is `$<n>\r\n<bytes>\r\n` with `n`
the byte length of the payload, and every array reply `*<N>\r\n` is followed by
exactly `N` bulk-string encodings. On a state whose lists have Go `int` lengths:
`ECHO x` replies with the bulk string of `x`; `GET k` with the null bulk or the
bulk string of the stored value; `LRANGE` with the array encoding of some
element sequence; `LPOP` / `RPOP` with the null bulk, the bulk string of one
element, or the array encoding of some element sequence. -/
theorem replies_follow_wire_format (ToUpper : String → String) (st : Store) (now : Int)
    (c : String) (args : List String)
    (hlists : ∀ key L, GoMap.find st.lists key = some L →
      (L.length : Int) < 9223372036854775808) :
    (∀ x, bulk x = "$" ++ fmtInt (x.utf8ByteSize : Int) ++ "\r\n" ++ x ++ "\r\n") ∧
    (ToUpper c = "ECHO" → ∀ x rest, args = x :: rest →
      (handleCommand ToUpper st now (c :: args)).out = specBulk x) ∧
    (ToUpper c = "GET" → ∀ k rest, args = k :: rest →
      (handleCommand ToUpper st now (c :: args)).out = "$-1\r\n" ∨
      ∃ val, GoMap.find st.store k = some val ∧
        (handleCommand ToUpper st now (c :: args)).out = specBulk val) ∧
    (ToUpper c = "LRANGE" → ∀ k a b rest, args = k :: a :: b :: rest →
      ∃ elems, (handleCommand ToUpper st now (c :: args)).out = specArray elems) ∧
    (ToUpper c = "LPOP" ∨ ToUpper c = "RPOP" → ∀ k rest, args = k :: rest →
      (handleCommand ToUpper st now (c :: args)).out = "$-1\r\n" ∨
      (∃ x, (handleCommand ToUpper st now (c :: args)).out = specBulk x) ∨
      ∃ elems, (handleCommand ToUpper st now (c :: args)).out = specArray elems) := by
  refine ⟨fun _ => rfl, ?_, ?_, ?_, ?_⟩
  · intro hc x rest hargs
    subst hargs
    rw [handleCommand_ECHO ToUpper st now c _ hc]
    rfl
  · intro hc k rest hargs
    subst hargs
    rw [handleCommand_GET ToUpper st now c _ hc]
    cases hval : GoMap.find st.store k with
    | none =>
      left
      simp only [cmdGET, hval]
    | some val =>
      cases hexp : GoMap.find st.expiry k with
      | none =>
        refine Or.inr ⟨val, rfl, ?_⟩
        simp only [cmdGET, hval, hexp]
        rfl
      | some exp =>
        by_cases hgt : now > exp
        · left
          simp only [cmdGET, hval, hexp, if_pos hgt]
        · refine Or.inr ⟨val, rfl, ?_⟩
          simp only [cmdGET, hval, hexp, if_neg hgt]
          rfl
  · intro hc k a b rest hargs
    subst hargs
    rw [handleCommand_LRANGE ToUpper st now c _ hc]
    cases hfind : GoMap.find st.lists k with
    | none =>
      refine ⟨[], ?_⟩
      simp only [cmdLRANGE, hfind]
      rfl
    | some L =>
      by_cases hne : L = []
      · subst hne
        refine ⟨[], ?_⟩
        simp only [cmdLRANGE, hfind, List.length_nil, if_true]
        rfl
      · obtain ⟨s, hs⟩ : ∃ s : Int,
            s = max 0 (if (Atoi a).1 < 0 then (Atoi a).1 + L.length else (Atoi a).1) := ⟨_, rfl⟩
        obtain ⟨e, he⟩ : ∃ e : Int, e = min ((L.length : Int) - 1)
            (max 0 (if (Atoi b).1 < 0 then (Atoi b).1 + L.length else (Atoi b).1)) := ⟨_, rfl⟩
        have hs0 : 0 ≤ s := by rw [hs]; exact le_max_left _ _
        have hen : e ≤ (L.length : Int) - 1 := by rw [he]; exact min_le_left _ _
        rw [cmdLRANGE_normalised st c k a b rest L s e hfind hne (hlists k L hfind) hs he]
        by_cases hgo : s > e ∨ s ≥ L.length
        · simp only [if_pos hgo]
          exact ⟨[], rfl⟩
        · simp only [if_neg hgo]
          refine ⟨_, array_reply_eq_specArray _ _ ?_⟩
          rw [List.length_take, List.length_drop]
          omega
  · intro hc k rest hargs
    subst hargs
    rcases hc with hc | hc
    · rw [handleCommand_LPOP ToUpper st now c _ hc]
      exact cmdLPOP_shape st c k rest
    · rw [handleCommand_RPOP ToUpper st now c _ hc]
      exact cmdRPOP_shape st c k rest hlists

theorem lists_bounded_of_entries (st : Store)
    (h : ∀ p ∈ st.lists, (p.2.length : Int) < 9223372036854775808) :
    ∀ key L, GoMap.find st.lists key = some L → (L.length : Int) < 9223372036854775808 :=
  fun key L hfind => h (key, L) (mem_of_find _ _ _ hfind)

/-- Witness for C16: `ECHO` of a five-character, six-byte string, and `LRANGE`
of two elements. -/
theorem replies_follow_wire_format_witness :
    asciiUpper "ECHO" = "ECHO" ∧ asciiUpper "LRANGE" = "LRANGE" ∧
    (handleCommand asciiUpper ⟨[], [], [("l", ["a", "bb"])]⟩ 0 ["ECHO", "héllo"]).out
      = "$6\r\nhéllo\r\n" ∧
    (∃ elems, (handleCommand asciiUpper ⟨[], [], [("l", ["a", "bb"])]⟩ 0
        ["LRANGE", "l", "0", "5"]).out = specArray elems) ∧
    (handleCommand asciiUpper ⟨[], [], [("l", ["a", "bb"])]⟩ 0 ["LRANGE", "l", "0", "5"]).out
      = "*2\r\n$1\r\na\r\n$2\r\nbb\r\n" :=
  ⟨by decide, by decide,
    ((replies_follow_wire_format asciiUpper ⟨[], [], [("l", ["a", "bb"])]⟩ 0 "ECHO" ["héllo"]
      (lists_bounded_of_entries _ (by decide))).2.1 (by decide) "héllo" [] rfl).trans (by decide),
    (replies_follow_wire_format asciiUpper ⟨[], [], [("l", ["a", "bb"])]⟩ 0 "LRANGE"
      ["l", "0", "5"] (lists_bounded_of_entries _ (by decide))).2.2.2.1 (by decide)
      "l" "0" "5" [] rfl,
    by decide⟩

/-! ## C17 -/

theorem pushFold_other (name k' : String) (hne : name ≠ k')
    (g : GoMap (List String) → String → List String) (vs : List String) :
    ∀ ls : GoMap (List String),
      GoMap.find (vs.foldl (fun ls v => GoMap.set ls name (g ls v)) ls) k' = GoMap.find ls k' := by
  induction vs with
  | nil => intro ls; rfl
  | cons v rest ih =>
    intro ls
    rw [List.foldl_cons, ih, find_set_ne _ _ _ _ hne]

theorem cmdLPOP_state (st : Store) (c name : String) (rest : List String) :
    (cmdLPOP st (c :: name :: rest)).st = st ∨
    ∃ l, (cmdLPOP st (c :: name :: rest)).st = { st with lists := GoMap.set st.lists name l } := by
  simp only [cmdLPOP]
  repeat' split
  all_goals first
    | exact Or.inl rfl
    | exact Or.inr ⟨_, rfl⟩

theorem cmdRPOP_state (st : Store) (c name : String) (rest : List String) :
    (cmdRPOP st (c :: name :: rest)).st = st ∨
    ∃ l, (cmdRPOP st (c :: name :: rest)).st = { st with lists := GoMap.set st.lists name l } := by
  simp only [cmdRPOP]
  repeat' split
  all_goals first
    | exact Or.inl rfl
    | exact Or.inr ⟨_, rfl⟩

theorem cmdSET_state (ToUpper : String → String) (st : Store) (now : Int)
    (c key : String) (rest : List String) :
    (cmdSET ToUpper st now (c :: key :: rest)).st = st ∨
    ∃ s e, (cmdSET ToUpper st now (c :: key :: rest)).st = { st with store := s, expiry := e } ∧
      (∀ k', k' ≠ key → GoMap.find s k' = GoMap.find st.store k' ∧
        GoMap.find e k' = GoMap.find st.expiry k') := by
  have hset : ∀ (v : String) (k' : String), k' ≠ key →
      GoMap.find (GoMap.set st.store key v) k' = GoMap.find st.store k' :=
    fun v k' h => find_set_ne _ _ _ _ (Ne.symm h)
  have hsete : ∀ (v : Int) (k' : String), k' ≠ key →
      GoMap.find (GoMap.set st.expiry key v) k' = GoMap.find st.expiry k' :=
    fun v k' h => find_set_ne _ _ _ _ (Ne.symm h)
  have hdel : ∀ (k' : String), k' ≠ key →
      GoMap.find (GoMap.delete st.expiry key) k' = GoMap.find st.expiry k' :=
    fun k' h => find_delete_ne _ _ _ (Ne.symm h)
  match rest with
  | [] => exact Or.inl rfl
  | [v] => exact Or.inr ⟨_, _, rfl, fun k' h => ⟨hset v k' h, hdel k' h⟩⟩
  | [_, _] => exact Or.inl rfl
  | [v, opt, ttl] =>
    simp only [cmdSET]
    repeat' split
    all_goals first
      | exact Or.inl rfl
      | exact Or.inr ⟨_, _, rfl, fun k' h => ⟨hset v k' h, hsete _ k' h⟩⟩
  | _ :: _ :: _ :: _ :: _ => exact Or.inl rfl

theorem cmdGET_state (st : Store) (now : Int) (c key : String) (rest : List String) :
    (cmdGET st now (c :: key :: rest)).st = st ∨
    (cmdGET st now (c :: key :: rest)).st
      = { st with store := GoMap.delete st.store key, expiry := GoMap.delete st.expiry key } := by
  simp only [cmdGET]
  repeat' split
  all_goals first
    | exact Or.inl rfl
    | exact Or.inr rfl

theorem handleCommand_nokey_state (ToUpper : String → String) (st : Store) (now : Int)
    (c : String) : (handleCommand ToUpper st now [c]).st = st := by
  by_cases p1 : ToUpper c = "PING"
  · simp [handleCommand, p1]
  by_cases p2 : ToUpper c = "SET"
  · rw [handleCommand_SET ToUpper st now c _ p2]; rfl
  by_cases p3 : ToUpper c = "GET"
  · rw [handleCommand_GET ToUpper st now c _ p3]; rfl
  by_cases p4 : ToUpper c = "ECHO"
  · rw [handleCommand_ECHO ToUpper st now c _ p4]; rfl
  by_cases p5 : ToUpper c = "RPUSH"
  · rw [handleCommand_RPUSH ToUpper st now c _ p5]; rfl
  by_cases p6 : ToUpper c = "LPUSH"
  · rw [handleCommand_LPUSH ToUpper st now c _ p6]; rfl
  by_cases p7 : ToUpper c = "LRANGE"
  · rw [handleCommand_LRANGE ToUpper st now c _ p7]; rfl
  by_cases p8 : ToUpper c = "LLEN"
  · rw [handleCommand_LLEN ToUpper st now c _ p8]; rfl
  by_cases p9 : ToUpper c = "LPOP"
  · rw [handleCommand_LPOP ToUpper st now c _ p9]; rfl
  by_cases p10 : ToUpper c = "RPOP"
  · rw [handleCommand_RPOP ToUpper st now c _ p10]; rfl
  simp only [handleCommand, if_neg p1, if_neg p2, if_neg p3, if_neg p4, if_neg p5, if_neg p6,
    if_neg p7, if_neg p8, if_neg p9, if_neg p10]

theorem cmdLRANGE_state (st : Store) (parts : List String) : (cmdLRANGE st parts).st = st := by
  unfold cmdLRANGE
  split
  · split
    · rfl
    · split
      · rfl
      · dsimp only
        rw [apply_ite Result.st]
        generalize writeElems _ _ _ _ _ = w
        cases w <;> simp
  · rfl

/-- C17: the string and list key spaces are disjoint and a command touches only
the key it names. For a frame `c k rest...`: SET and GET leave all lists
(a list named `k` included) and the value and expiration of every other
string key as they were; RPUSH, LPUSH, LPOP and RPOP leave the string values
and expirations (of `k` included) and every other list as they were; PING,
ECHO, LRANGE and LLEN change nothing; and a frame without a key changes
nothing. -/
theorem commands_touch_only_their_key (ToUpper : String → String) (st : Store) (now : Int)
    (c k : String) (rest : List String) :
    (ToUpper c = "SET" ∨ ToUpper c = "GET" →
      (handleCommand ToUpper st now (c :: k :: rest)).st.lists = st.lists ∧
      ∀ k', k' ≠ k →
        GoMap.find (handleCommand ToUpper st now (c :: k :: rest)).st.store k'
          = GoMap.find st.store k' ∧
        GoMap.find (handleCommand ToUpper st now (c :: k :: rest)).st.expiry k'
          = GoMap.find st.expiry k') ∧
    (ToUpper c = "RPUSH" ∨ ToUpper c = "LPUSH" ∨ ToUpper c = "LPOP" ∨ ToUpper c = "RPOP" →
      (handleCommand ToUpper st now (c :: k :: rest)).st.store = st.store ∧
      (handleCommand ToUpper st now (c :: k :: rest)).st.expiry = st.expiry ∧
      ∀ k', k' ≠ k →
        GoMap.find (handleCommand ToUpper st now (c :: k :: rest)).st.lists k'
          = GoMap.find st.lists k') ∧
    (ToUpper c = "PING" ∨ ToUpper c = "ECHO" ∨ ToUpper c = "LRANGE" ∨ ToUpper c = "LLEN" →
      (handleCommand ToUpper st now (c :: k :: rest)).st = st) ∧
    (handleCommand ToUpper st now [c]).st = st := by
  refine ⟨?_, ?_, ?_, ?_⟩
  · rintro (hc | hc)
    · rw [handleCommand_SET ToUpper st now c _ hc]
      rcases cmdSET_state ToUpper st now c k rest with h | ⟨s, e, h, hk⟩
      · rw [h]
        exact ⟨rfl, fun _ _ => ⟨rfl, rfl⟩⟩
      · rw [h]
        exact ⟨rfl, hk⟩
    · rw [handleCommand_GET ToUpper st now c _ hc]
      rcases cmdGET_state st now c k rest with h | h
      · rw [h]
        exact ⟨rfl, fun _ _ => ⟨rfl, rfl⟩⟩
      · rw [h]
        exact ⟨rfl, fun k' hk' =>
          ⟨find_delete_ne _ _ _ (Ne.symm hk'), find_delete_ne _ _ _ (Ne.symm hk')⟩⟩
  · rintro (hc | hc | hc | hc)
    · rw [handleCommand_RPUSH ToUpper st now c _ hc]
      cases rest with
      | nil => exact ⟨rfl, rfl, fun _ _ => rfl⟩
      | cons v vs =>
        refine ⟨rfl, rfl, fun k' hk' => ?_⟩
        exact pushFold_other k k' (Ne.symm hk') (fun ls x => listAt ls k ++ [x]) (v :: vs) st.lists
    · rw [handleCommand_LPUSH ToUpper st now c _ hc]
      cases rest with
      | nil => exact ⟨rfl, rfl, fun _ _ => rfl⟩
      | cons v vs =>
        refine ⟨rfl, rfl, fun k' hk' => ?_⟩
        exact pushFold_other k k' (Ne.symm hk') (fun ls x => [x] ++ listAt ls k) (v :: vs) st.lists
    · rw [handleCommand_LPOP ToUpper st now c _ hc]
      rcases cmdLPOP_state st c k rest with h | ⟨l, h⟩
      · rw [h]
        exact ⟨rfl, rfl, fun _ _ => rfl⟩
      · rw [h]
        exact ⟨rfl, rfl, fun k' hk' => find_set_ne _ _ _ _ (Ne.symm hk')⟩
    · rw [handleCommand_RPOP ToUpper st now c _ hc]
      rcases cmdRPOP_state st c k rest with h | ⟨l, h⟩
      · rw [h]
        exact ⟨rfl, rfl, fun _ _ => rfl⟩
      · rw [h]
        exact ⟨rfl, rfl, fun k' hk' => find_set_ne _ _ _ _ (Ne.symm hk')⟩
  · rintro (hc | hc | hc | hc)
    · simp [handleCommand, hc]
    · rw [handleCommand_ECHO ToUpper st now c _ hc]
      rfl
    · rw [handleCommand_LRANGE ToUpper st now c _ hc]
      exact cmdLRANGE_state st _
    · rw [handleCommand_LLEN ToUpper st now c _ hc]
      rfl
  · exact handleCommand_nokey_state ToUpper st now c

/-- Witness for C17: on a state where `k` names both a string and a list,
`SET k w` leaves the lists and the other string key alone, and `RPUSH k x`
leaves the strings alone. -/
theorem commands_touch_only_their_key_witness :
    asciiUpper "SET" = "SET" ∧ asciiUpper "RPUSH" = "RPUSH" ∧
    (handleCommand asciiUpper ⟨[("k", "v"), ("j", "u")], [("j", 7)], [("k", ["a"])]⟩ 0
        ["SET", "k", "w"]).st.lists = [("k", ["a"])] ∧
    GoMap.find
      (handleCommand asciiUpper ⟨[("k", "v"), ("j", "u")], [("j", 7)], [("k", ["a"])]⟩ 0
        ["SET", "k", "w"]).st.store "j" = some "u" ∧
    (handleCommand asciiUpper ⟨[("k", "v"), ("j", "u")], [("j", 7)], [("k", ["a"])]⟩ 0
        ["RPUSH", "k", "x"]).st.store = [("k", "v"), ("j", "u")] :=
  have h := commands_touch_only_their_key asciiUpper
    ⟨[("k", "v"), ("j", "u")], [("j", 7)], [("k", ["a"])]⟩ 0
  ⟨by decide, by decide,
    ((h "SET" "k" ["w"]).1 (Or.inl (by decide))).1,
    (((h "SET" "k" ["w"]).1 (Or.inl (by decide))).2 "j" (by decide)).1.trans (by decide),
    ((h "RPUSH" "k" ["x"]).2.1 (Or.inl (by decide))).1⟩

/-! ## C18 -/

/-- The two atomic steps of GET, run back to back, are the sequential GET. -/
theorem getFinish_getRead (st : Store) (now : Int) (c key : String) (rest : List String) :
    getFinish (getRead st key) st now key = cmdGET st now (c :: key :: rest) := by
  unfold getFinish getRead cmdGET
  rfl

/-- C18 (the code at the failing interleaving): `k` holds `old` with a deadline
in the past. A `GET k` reads the expired entry under the read lock; before it
takes the write lock another connection's `SET k new` runs; the GET then
deletes `store[k]` and `expiry[k]` without looking again. The GET replies null,
the SET replies OK, and `k` is left without a value. In either sequential order
of the two commands `k` ends up holding `new`. -/
theorem get_eviction_deletes_concurrent_set :
    getRead ⟨[("k", "old")], [("k", 5)], []⟩ "k" = ⟨some "old", some 5⟩ ∧
    handleCommand asciiUpper ⟨[("k", "old")], [("k", 5)], []⟩ 10 ["SET", "k", "new"]
      = ⟨⟨[("k", "new")], [], []⟩, "+OK\r\n", Flow.next⟩ ∧
    getFinish (getRead ⟨[("k", "old")], [("k", 5)], []⟩ "k")
        (handleCommand asciiUpper ⟨[("k", "old")], [("k", 5)], []⟩ 10 ["SET", "k", "new"]).st
        10 "k"
      = ⟨⟨[], [], []⟩, "$-1\r\n", Flow.next⟩ ∧
    runAtomic asciiUpper ⟨[("k", "old")], [("k", 5)], []⟩
        [(10, ["GET", "k"]), (10, ["SET", "k", "new"])]
      = (⟨[("k", "new")], [], []⟩, ["$-1\r\n", "+OK\r\n"]) ∧
    runAtomic asciiUpper ⟨[("k", "old")], [("k", 5)], []⟩
        [(10, ["SET", "k", "new"]), (10, ["GET", "k"])]
      = (⟨[("k", "new")], [], []⟩, ["+OK\r\n", "$3\r\nnew\r\n"]) := by
  decide

/-! ## C19 -/

theorem runAtomic_rpush (ToUpper : String → String) (c k : String)
    (hc : ToUpper c = "RPUSH") (order : List (Int × String)) :
    ∀ (st : Store),
      (runAtomic ToUpper st (order.map (fun p => (p.1, [c, k, p.2])))).2
        = (List.range order.length).map
            (fun i => intReply (((listAt st.lists k).length + (i + 1) : Nat) : Int)) ∧
      listAt (runAtomic ToUpper st (order.map (fun p => (p.1, [c, k, p.2])))).1.lists k
        = listAt st.lists k ++ order.map Prod.snd := by
  induction order with
  | nil => intro st; simp [runAtomic]
  | cons p rest ih =>
    intro st
    have hstep : handleCommand ToUpper st p.1 [c, k, p.2]
        = ⟨{ st with lists := GoMap.set st.lists k (listAt st.lists k ++ [p.2]) },
            intReply (((listAt st.lists k).length + 1 : Nat) : Int), Flow.next⟩ := by
      rw [handleCommand_RPUSH ToUpper st p.1 c _ hc]
      simp [cmdRPUSH, listAt, find_set_self]
    have hl : listAt (GoMap.set st.lists k (listAt st.lists k ++ [p.2])) k
        = listAt st.lists k ++ [p.2] := by
      simp [listAt, find_set_self]
    have h := ih { st with lists := GoMap.set st.lists k (listAt st.lists k ++ [p.2]) }
    simp only [hl] at h
    simp only [List.map_cons, runAtomic, hstep, h.1, h.2, List.length_cons, List.range_succ_eq_map,
      List.map_map]
    refine ⟨?_, by simp⟩
    congr 1
    apply List.map_congr_left
    intro i _
    simp only [Function.comp, List.length_append, List.length_singleton]
    congr 2
    omega

/-- C19: `N` single-value `RPUSH k v` commands of different connections against
a fresh key, each executed as a whole under the store lock, whatever the order
in which they take it: the length replies are `1, 2, ..., N` in that order (each
exactly once), the list holds the pushed values in that order, which is a
rearrangement of the submitted values (none duplicated or dropped), and a final
`LLEN k` replies `N`. -/
theorem concurrent_rpush_lengths (ToUpper : String → String) (st : Store)
    (c clen k : String) (submitted : List String) (order : List (Int × String)) (t : Int)
    (hc : ToUpper c = "RPUSH") (hllen : ToUpper clen = "LLEN")
    (hfresh : GoMap.find st.lists k = none)
    (hperm : List.Perm (order.map Prod.snd) submitted) :
    (runAtomic ToUpper st (order.map (fun p => (p.1, [c, k, p.2])))).2
      = (List.range submitted.length).map (fun i => intReply ((i + 1 : Nat) : Int)) ∧
    listAt (runAtomic ToUpper st (order.map (fun p => (p.1, [c, k, p.2])))).1.lists k
      = order.map Prod.snd ∧
    List.Perm
      (listAt (runAtomic ToUpper st (order.map (fun p => (p.1, [c, k, p.2])))).1.lists k)
      submitted ∧
    (handleCommand ToUpper
        (runAtomic ToUpper st (order.map (fun p => (p.1, [c, k, p.2])))).1 t [clen, k]).out
      = intReply (submitted.length : Nat) := by
  have h := runAtomic_rpush ToUpper c k hc order st
  have hempty : listAt st.lists k = [] := by simp [listAt, hfresh]
  have hlen : order.length = submitted.length := by
    rw [← List.length_map order Prod.snd]
    exact hperm.length_eq
  rw [hempty] at h
  simp only [List.length_nil, Nat.zero_add, List.nil_append] at h
  refine ⟨?_, h.2, ?_, ?_⟩
  · rw [h.1, hlen]
  · rw [h.2]
    exact hperm
  · rw [handleCommand_LLEN ToUpper _ t clen _ hllen]
    simp only [cmdLLEN, h.2, List.length_map, hlen]

/-- Witness for C19: three connections submit `a`, `b`, `c`; the lock is taken
in the order `b`, `c`, `a`. -/
theorem concurrent_rpush_lengths_witness :
    asciiUpper "RPUSH" = "RPUSH" ∧ asciiUpper "LLEN" = "LLEN" ∧
    (runAtomic asciiUpper ⟨[], [], []⟩
        [(3, ["RPUSH", "k", "b"]), (1, ["RPUSH", "k", "c"]), (2, ["RPUSH", "k", "a"])]).2
      = [":1\r\n", ":2\r\n", ":3\r\n"] ∧
    (handleCommand asciiUpper
        (runAtomic asciiUpper ⟨[], [], []⟩
          [(3, ["RPUSH", "k", "b"]), (1, ["RPUSH", "k", "c"]), (2, ["RPUSH", "k", "a"])]).1
        9 ["LLEN", "k"]).out = ":3\r\n" :=
  have h := concurrent_rpush_lengths asciiUpper ⟨[], [], []⟩ "RPUSH" "LLEN" "k" ["a", "b", "c"]
    [(3, "b"), (1, "c"), (2, "a")] 9 (by decide) (by decide) (by decide) (by decide)
  ⟨by decide, by decide, h.1.trans (by decide), h.2.2.2.trans (by decide)⟩

/-! ## Lemmas on the count argument of LPOP and RPOP -/

theorem popCount_rejected (c name arg : String) (rest : List String)
    (h : ¬ ((Atoi arg).2 = true ∧ (Atoi arg).1 > 0)) :
    popCount (c :: name :: arg :: rest) = none := by
  simp only [popCount, if_neg h]

theorem cmdLPOP_rejected (st : Store) (c name arg : String)
    (h : ¬ ((Atoi arg).2 = true ∧ (Atoi arg).1 > 0)) :
    cmdLPOP st [c, name, arg] = ⟨st, "*0\r\n", Flow.next⟩ := by
  simp only [cmdLPOP, popCount_rejected c name arg [] h]

theorem cmdRPOP_rejected (st : Store) (c name arg : String)
    (h : ¬ ((Atoi arg).2 = true ∧ (Atoi arg).1 > 0)) :
    cmdRPOP st [c, name, arg] = ⟨st, "*0\r\n", Flow.next⟩ := by
  simp only [cmdRPOP, popCount_rejected c name arg [] h]

theorem cmdLPOP_nothing (st : Store) (c name : String) (rest : List String) (cnt : Int)
    (hpc : popCount (c :: name :: rest) = some cnt)
    (hno : GoMap.find st.lists name = none ∨ GoMap.find st.lists name = some []) :
    cmdLPOP st (c :: name :: rest) = ⟨st, "$-1\r\n", Flow.next⟩ := by
  rcases hno with h | h
  · simp only [cmdLPOP, hpc, h]
  · simp only [cmdLPOP, hpc, h, List.length_nil, if_true]

theorem cmdRPOP_nothing (st : Store) (c name : String) (rest : List String) (cnt : Int)
    (hpc : popCount (c :: name :: rest) = some cnt)
    (hno : GoMap.find st.lists name = none ∨ GoMap.find st.lists name = some []) :
    cmdRPOP st (c :: name :: rest) = ⟨st, "$-1\r\n", Flow.next⟩ := by
  rcases hno with h | h
  · simp only [cmdRPOP, hpc, h]
  · simp only [cmdRPOP, hpc, h, List.length_nil, if_true]

/-! ## C4 -/

/-- C4 (as stated, refuted): the explicit count 9223372036854775808 is at least
1, and `LPOP l 9223372036854775808` on `[a, b, c]` does not return the first
`min(c, 3) = 3` elements: `strconv.Atoi` rejects the numeral (it is outside
`int64`), the reply is `*0\r\n` and the list is left as it was. -/
theorem lpop_count_beyond_int64_pops_nothing :
    (Atoi "9223372036854775808").2 = false ∧
    handleCommand asciiUpper ⟨[], [], [("l", ["a", "b", "c"])]⟩ 0
        ["LPOP", "l", "9223372036854775808"]
      = ⟨⟨[], [], [("l", ["a", "b", "c"])]⟩, "*0\r\n", Flow.next⟩ ∧
    (handleCommand asciiUpper ⟨[], [], [("l", ["a", "b", "c"])]⟩ 0
        ["LPOP", "l", "9223372036854775808"]).out
      ≠ "*3\r\n$1\r\na\r\n$1\r\nb\r\n$1\r\nc\r\n" := by
  decide

/-- C4 (amended): on a non-empty list `L` at `k`, for every count argument that
`strconv.Atoi` reads as an integer `cnt ≥ 1` (the decimal numeral of every
`1 ≤ cnt ≤ 2^63 - 1` is one): with `m = min(cnt, |L|)`, the reply of
`LPOP k <arg>` carries the first `m` elements of `L` in list order (a single
bulk string when `m = 1`, otherwise an array of `m` bulk strings), the list
left at `k` is the remaining suffix, popped ++ remaining = `L`, and no slice or
index is out of range. A count argument that `strconv.Atoi` rejects or reads
as an integer below 1 is answered by `*0\r\n` and nothing is popped. -/
theorem lpop_takes_front (ToUpper : String → String) (st : Store) (c name : String)
    (L : List String) (now : Int)
    (hc : ToUpper c = "LPOP") (hfind : GoMap.find st.lists name = some L) (hne : L ≠ []) :
    (∀ (arg : String) (cnt : Int), Atoi arg = (cnt, true) → 1 ≤ cnt →
      (handleCommand ToUpper st now [c, name, arg]).flow = Flow.next ∧
      (handleCommand ToUpper st now [c, name, arg]).out
        = (if min cnt.toNat L.length = 1 then bulk (L.head hne)
           else arrayHeader (min cnt.toNat L.length : Nat)
                  ++ writeBulks (L.take (min cnt.toNat L.length))) ∧
      GoMap.find (handleCommand ToUpper st now [c, name, arg]).st.lists name
        = some (L.drop (min cnt.toNat L.length)) ∧
      L.take (min cnt.toNat L.length) ++ L.drop (min cnt.toNat L.length) = L) ∧
    (∀ cnt : Int, 1 ≤ cnt → cnt ≤ 9223372036854775807 → Atoi (fmtInt cnt) = (cnt, true)) ∧
    (∀ arg : String, ¬ ((Atoi arg).2 = true ∧ (Atoi arg).1 > 0) →
      handleCommand ToUpper st now [c, name, arg] = ⟨st, "*0\r\n", Flow.next⟩) := by
  refine ⟨?_, ?_, ?_⟩
  · intro arg cnt harg hcnt
    rw [handleCommand_LPOP ToUpper st now c _ hc,
      cmdLPOP_pops st c name [arg] L cnt (popCount_given _ _ _ _ cnt harg hcnt) hcnt hfind hne]
    exact ⟨rfl, rfl, find_set_self _ _ _, List.take_append_drop _ _⟩
  · intro cnt h1 h2
    exact Atoi_fmtInt cnt (by unfold minInt64; omega) (by unfold maxInt64; omega)
  · intro arg hbad
    rw [handleCommand_LPOP ToUpper st now c _ hc]
    exact cmdLPOP_rejected st c name arg hbad

/-- Witness for C4 (amended): `LPOP l 2` on `[a, b, c]` replies `[a, b]` and
leaves `[c]`; `LPOP l 0` replies `*0\r\n`. -/
theorem lpop_takes_front_witness :
    asciiUpper "LPOP" = "LPOP" ∧ Atoi "2" = (2, true) ∧
    (handleCommand asciiUpper ⟨[], [], [("l", ["a", "b", "c"])]⟩ 0 ["LPOP", "l", "2"]).out
      = "*2\r\n$1\r\na\r\n$1\r\nb\r\n" ∧
    GoMap.find
      (handleCommand asciiUpper ⟨[], [], [("l", ["a", "b", "c"])]⟩ 0 ["LPOP", "l", "2"]).st.lists
      "l" = some ["c"] ∧
    handleCommand asciiUpper ⟨[], [], [("l", ["a", "b", "c"])]⟩ 0 ["LPOP", "l", "0"]
      = ⟨⟨[], [], [("l", ["a", "b", "c"])]⟩, "*0\r\n", Flow.next⟩ :=
  have h := lpop_takes_front asciiUpper ⟨[], [], [("l", ["a", "b", "c"])]⟩ "LPOP" "l"
    ["a", "b", "c"] 0 (by decide) (by decide) (by decide)
  ⟨by decide, by decide, (h.1 "2" 2 (by decide) (by decide)).2.1.trans (by decide),
    (h.1 "2" 2 (by decide) (by decide)).2.2.1, h.2.2 "0" (by decide)⟩

/-! ## C20 -/

/-- C20 (as stated, refuted): the explicit count 99999999999999999999 is at
least 1, and `RPOP l 99999999999999999999` on `[a, b, c]` does not return the
last `min(c, 3) = 3` elements: `strconv.Atoi` rejects the numeral (it is
outside `int64`), the reply is `*0\r\n` and the list is left as it was. -/
theorem rpop_count_beyond_int64_pops_nothing :
    (Atoi "99999999999999999999").2 = false ∧
    handleCommand asciiUpper ⟨[], [], [("l", ["a", "b", "c"])]⟩ 0
        ["RPOP", "l", "99999999999999999999"]
      = ⟨⟨[], [], [("l", ["a", "b", "c"])]⟩, "*0\r\n", Flow.next⟩ ∧
    (handleCommand asciiUpper ⟨[], [], [("l", ["a", "b", "c"])]⟩ 0
        ["RPOP", "l", "99999999999999999999"]).out
      ≠ "*3\r\n$1\r\na\r\n$1\r\nb\r\n$1\r\nc\r\n" := by
  decide

/-- C20 (amended): on a non-empty list `L` (of Go `int` length) at `k`, for every
count argument that `strconv.Atoi` reads as an integer `cnt ≥ 1` (the decimal
numeral of every `1 ≤ cnt ≤ 2^63 - 1` is one): with `m = min(cnt, |L|)`, the
reply of `RPOP k <arg>` carries the last `m` elements of `L` in their original
list order (a single bulk string when `m = 1`, otherwise an array of `m` bulk
strings), the list left at `k` is the remaining prefix, remaining ++ popped =
`L`, and no slice or index is out of range. A count argument that
`strconv.Atoi` rejects or reads as an integer below 1 is answered by `*0\r\n`
and nothing is popped. -/
theorem rpop_takes_back (ToUpper : String → String) (st : Store) (c name : String)
    (L : List String) (now : Int)
    (hc : ToUpper c = "RPOP") (hfind : GoMap.find st.lists name = some L) (hne : L ≠ [])
    (hlen : (L.length : Int) < 9223372036854775808) :
    (∀ (arg : String) (cnt : Int), Atoi arg = (cnt, true) → 1 ≤ cnt →
      (handleCommand ToUpper st now [c, name, arg]).flow = Flow.next ∧
      (handleCommand ToUpper st now [c, name, arg]).out
        = (if min cnt.toNat L.length = 1 then bulk (L.getLast hne)
           else arrayHeader (min cnt.toNat L.length : Nat)
                  ++ writeBulks (L.drop (L.length - min cnt.toNat L.length))) ∧
      GoMap.find (handleCommand ToUpper st now [c, name, arg]).st.lists name
        = some (L.take (L.length - min cnt.toNat L.length)) ∧
      L.take (L.length - min cnt.toNat L.length) ++ L.drop (L.length - min cnt.toNat L.length)
        = L ∧
      (L.drop (L.length - min cnt.toNat L.length)).length = min cnt.toNat L.length) ∧
    (∀ cnt : Int, 1 ≤ cnt → cnt ≤ 9223372036854775807 → Atoi (fmtInt cnt) = (cnt, true)) ∧
    (∀ arg : String, ¬ ((Atoi arg).2 = true ∧ (Atoi arg).1 > 0) →
      handleCommand ToUpper st now [c, name, arg] = ⟨st, "*0\r\n", Flow.next⟩) := by
  refine ⟨?_, ?_, ?_⟩
  · intro arg cnt harg hcnt
    rw [handleCommand_RPOP ToUpper st now c _ hc,
      cmdRPOP_pops st c name [arg] L cnt (popCount_given _ _ _ _ cnt harg hcnt) hcnt hfind hne
        hlen]
    refine ⟨rfl, rfl, find_set_self _ _ _, List.take_append_drop _ _, ?_⟩
    rw [List.length_drop]
    have : min cnt.toNat L.length ≤ L.length := Nat.min_le_right _ _
    omega
  · intro cnt h1 h2
    exact Atoi_fmtInt cnt (by unfold minInt64; omega) (by unfold maxInt64; omega)
  · intro arg hbad
    rw [handleCommand_RPOP ToUpper st now c _ hc]
    exact cmdRPOP_rejected st c name arg hbad

/-- Witness for C20 (amended): `RPOP l 2` on `[a, b, c]` replies `[b, c]` and
leaves `[a]`; `RPOP l -1` replies `*0\r\n`. -/
theorem rpop_takes_back_witness :
    asciiUpper "RPOP" = "RPOP" ∧ Atoi "2" = (2, true) ∧
    (handleCommand asciiUpper ⟨[], [], [("l", ["a", "b", "c"])]⟩ 0 ["RPOP", "l", "2"]).out
      = "*2\r\n$1\r\nb\r\n$1\r\nc\r\n" ∧
    GoMap.find
      (handleCommand asciiUpper ⟨[], [], [("l", ["a", "b", "c"])]⟩ 0 ["RPOP", "l", "2"]).st.lists
      "l" = some ["a"] ∧
    handleCommand asciiUpper ⟨[], [], [("l", ["a", "b", "c"])]⟩ 0 ["RPOP", "l", "-1"]
      = ⟨⟨[], [], [("l", ["a", "b", "c"])]⟩, "*0\r\n", Flow.next⟩ :=
  have h := rpop_takes_back asciiUpper ⟨[], [], [("l", ["a", "b", "c"])]⟩ "RPOP" "l"
    ["a", "b", "c"] 0 (by decide) (by decide) (by decide) (by decide)
  ⟨by decide, by decide, (h.1 "2" 2 (by decide) (by decide)).2.1.trans (by decide),
    (h.1 "2" 2 (by decide) (by decide)).2.2.1, h.2.2 "-1" (by decide)⟩

/-! ## C11 -/

/-- C11 (as stated, refuted): `LPOP l 2` on the one-element list `[a]` has an
explicit count greater than 1 and is answered by the scalar bulk string of `a`,
not by an array. -/
theorem lpop_count_two_on_singleton_is_scalar :
    Atoi "2" = (2, true) ∧
    (handleCommand asciiUpper ⟨[], [], [("l", ["a"])]⟩ 0 ["LPOP", "l", "2"]).out = "$1\r\na\r\n" ∧
    (handleCommand asciiUpper ⟨[], [], [("l", ["a"])]⟩ 0 ["RPOP", "l", "2"]).out = "$1\r\na\r\n" ∧
    (handleCommand asciiUpper ⟨[], [], [("l", ["a"])]⟩ 0 ["LPOP", "l", "2"]).out.data.head?
      ≠ some '*' := by
  decide

/-- C11 (amended): the reply shape of `LPOP k` / `RPOP k` follows the number of
elements popped. On a non-empty list `L` (of Go `int` length): without a count
the reply is the single bulk string of the first / last element; with a count
argument that `strconv.Atoi` reads as an integer `cnt ≥ 1` (the decimal numeral
of every `1 ≤ cnt ≤ 2^63 - 1` is one) and `m = min(cnt, |L|)`, it is that same
single bulk string when `m = 1` (count 1, or only one element in the list) and
the array of the `m` popped elements when `m ≥ 2`. On an absent or empty list
the reply is the null bulk `$-1\r\n`, without a count and with every such count
alike. A count argument that `strconv.Atoi` rejects or reads as an integer
below 1 is answered by the empty array `*0\r\n`, whatever the list holds. -/
theorem pop_reply_shape (ToUpper : String → String) (st : Store) (cl cr name : String)
    (L : List String) (now : Int)
    (hl : ToUpper cl = "LPOP") (hr : ToUpper cr = "RPOP")
    (hfind : GoMap.find st.lists name = some L) (hne : L ≠ [])
    (hlen : (L.length : Int) < 9223372036854775808) :
    (handleCommand ToUpper st now [cl, name]).out = bulk (L.head hne) ∧
    (handleCommand ToUpper st now [cr, name]).out = bulk (L.getLast hne) ∧
    (∀ arg cnt, Atoi arg = (cnt, true) → 1 ≤ cnt →
      (min cnt.toNat L.length = 1 →
        (handleCommand ToUpper st now [cl, name, arg]).out = bulk (L.head hne) ∧
        (handleCommand ToUpper st now [cr, name, arg]).out = bulk (L.getLast hne)) ∧
      (min cnt.toNat L.length ≠ 1 →
        (handleCommand ToUpper st now [cl, name, arg]).out
          = arrayHeader (min cnt.toNat L.length : Nat)
              ++ writeBulks (L.take (min cnt.toNat L.length)) ∧
        (handleCommand ToUpper st now [cr, name, arg]).out
          = arrayHeader (min cnt.toNat L.length : Nat)
              ++ writeBulks (L.drop (L.length - min cnt.toNat L.length)))) ∧
    (∀ cnt : Int, 1 ≤ cnt → cnt ≤ 9223372036854775807 → Atoi (fmtInt cnt) = (cnt, true)) ∧
    (∀ (st' : Store),
      GoMap.find st'.lists name = none ∨ GoMap.find st'.lists name = some [] →
        handleCommand ToUpper st' now [cl, name] = ⟨st', "$-1\r\n", Flow.next⟩ ∧
        handleCommand ToUpper st' now [cr, name] = ⟨st', "$-1\r\n", Flow.next⟩ ∧
        ∀ arg cnt, Atoi arg = (cnt, true) → 1 ≤ cnt →
          handleCommand ToUpper st' now [cl, name, arg] = ⟨st', "$-1\r\n", Flow.next⟩ ∧
          handleCommand ToUpper st' now [cr, name, arg] = ⟨st', "$-1\r\n", Flow.next⟩) ∧
    (∀ (st' : Store) (arg : String), ¬ ((Atoi arg).2 = true ∧ (Atoi arg).1 > 0) →
      handleCommand ToUpper st' now [cl, name, arg] = ⟨st', "*0\r\n", Flow.next⟩ ∧
      handleCommand ToUpper st' now [cr, name, arg] = ⟨st', "*0\r\n", Flow.next⟩) := by
  have hn : 0 < L.length := List.length_pos.mpr hne
  have hmin1 : min (1 : Int).toNat L.length = 1 := by
    have : (1 : Int).toNat = 1 := rfl
    omega
  refine ⟨?_, ?_, ?_, ?_, ?_, ?_⟩
  · rw [handleCommand_LPOP ToUpper st now cl _ hl,
      cmdLPOP_pops st cl name [] L 1 rfl (by omega) hfind hne]
    simp only [hmin1, if_true]
  · rw [handleCommand_RPOP ToUpper st now cr _ hr,
      cmdRPOP_pops st cr name [] L 1 rfl (by omega) hfind hne hlen]
    simp only [hmin1, if_true]
  · intro arg cnt harg hcnt
    rw [handleCommand_LPOP ToUpper st now cl _ hl, handleCommand_RPOP ToUpper st now cr _ hr,
      cmdLPOP_pops st cl name [arg] L cnt (popCount_given _ _ _ _ cnt harg hcnt) hcnt hfind hne,
      cmdRPOP_pops st cr name [arg] L cnt (popCount_given _ _ _ _ cnt harg hcnt) hcnt hfind hne
        hlen]
    constructor
    · intro h1
      simp only [h1, if_true, and_self]
    · intro h1
      simp only [h1, if_false, and_self]
  · intro cnt h1 h2
    exact Atoi_fmtInt cnt (by unfold minInt64; omega) (by unfold maxInt64; omega)
  · intro st' hno
    refine ⟨?_, ?_, ?_⟩
    · rw [handleCommand_LPOP ToUpper st' now cl _ hl]
      exact cmdLPOP_nothing st' cl name [] 1 rfl hno
    · rw [handleCommand_RPOP ToUpper st' now cr _ hr]
      exact cmdRPOP_nothing st' cr name [] 1 rfl hno
    · intro arg cnt harg hcnt
      rw [handleCommand_LPOP ToUpper st' now cl _ hl, handleCommand_RPOP ToUpper st' now cr _ hr]
      exact ⟨cmdLPOP_nothing st' cl name [arg] cnt (popCount_given _ _ _ _ cnt harg hcnt) hno,
        cmdRPOP_nothing st' cr name [arg] cnt (popCount_given _ _ _ _ cnt harg hcnt) hno⟩
  · intro st' arg hbad
    rw [handleCommand_LPOP ToUpper st' now cl _ hl, handleCommand_RPOP ToUpper st' now cr _ hr]
    exact ⟨cmdLPOP_rejected st' cl name arg hbad, cmdRPOP_rejected st' cr name arg hbad⟩

/-- Witness for C11 (amended): `LPOP l` and `RPOP l 2` on `[a, b, c]`; `RPOP l`
and `LPOP l 3` on an absent list; `LPOP l x` on `[a, b, c]`. -/
theorem pop_reply_shape_witness :
    asciiUpper "LPOP" = "LPOP" ∧ asciiUpper "RPOP" = "RPOP" ∧ Atoi "2" = (2, true) ∧
    (handleCommand asciiUpper ⟨[], [], [("l", ["a", "b", "c"])]⟩ 0 ["LPOP", "l"]).out
      = "$1\r\na\r\n" ∧
    (handleCommand asciiUpper ⟨[], [], [("l", ["a", "b", "c"])]⟩ 0 ["RPOP", "l", "2"]).out
      = "*2\r\n$1\r\nb\r\n$1\r\nc\r\n" ∧
    handleCommand asciiUpper ⟨[], [], []⟩ 0 ["RPOP", "l"] = ⟨⟨[], [], []⟩, "$-1\r\n", Flow.next⟩ ∧
    handleCommand asciiUpper ⟨[], [], []⟩ 0 ["LPOP", "l", "3"]
      = ⟨⟨[], [], []⟩, "$-1\r\n", Flow.next⟩ ∧
    handleCommand asciiUpper ⟨[], [], [("l", ["a", "b", "c"])]⟩ 0 ["LPOP", "l", "x"]
      = ⟨⟨[], [], [("l", ["a", "b", "c"])]⟩, "*0\r\n", Flow.next⟩ :=
  have h := pop_reply_shape asciiUpper ⟨[], [], [("l", ["a", "b", "c"])]⟩ "LPOP" "RPOP" "l"
    ["a", "b", "c"] 0 (by decide) (by decide) (by decide) (by decide) (by decide)
  ⟨by decide, by decide, by decide, h.1.trans (by decide),
    ((h.2.2.1 "2" 2 (by decide) (by decide)).2 (by decide)).2.trans (by decide),
    (h.2.2.2.2.1 ⟨[], [], []⟩ (Or.inl (by decide))).2.1,
    ((h.2.2.2.2.1 ⟨[], [], []⟩ (Or.inl (by decide))).2.2 "3" 3 (by decide) (by decide)).1,
    (h.2.2.2.2.2 ⟨[], [], [("l", ["a", "b", "c"])]⟩ "x" (by decide)).1⟩

end RedisFromScratch
